import Mathlib

/-!
Verification of the tidy-rename audio classification core.

This file gives a shallow embedding, in Lean 4, of the classification,
fingerprinting, spectral-analysis and duplicate-detection code of the
tidy-rename repository (Go), and proves or refutes the frozen claims about
it.  Each definition is translated from the corresponding Go function and
keeps its name where Lean allows.

Modelling conventions:
* Go `float64` is modelled by `Rat` (the numeric facts proved here are
  exact at the 0.1-granularity constants the code uses, so rational
  arithmetic is faithful for them).
* Go `int`/`time.Duration` are modelled by `Int` (nanoseconds for
  durations); the values involved never approach 64-bit overflow.
* Go string primitives (`strings.Contains`, `strings.HasPrefix`, ...)
  are re-implemented on `List Char`; Go's Unicode case mapping is
  modelled by ASCII case mapping, which agrees on every string the
  program manipulates (all tables and keywords are ASCII).
* A Go `map[string]T` with its insertion/update pattern is modelled by an
  association list updated in first-occurrence order; the properties
  proved below are insensitive to Go's unspecified map iteration order.
* A Go panic (nil-pointer dereference, out-of-range slice) is modelled by
  an `Option` result being `none`.
-/

/-- Does the second character list occur as an initial segment of the
first?  Models the prefix test underlying Go `strings` functions. -/
def strStartsList : List Char → List Char → Bool
  | _, [] => true
  | [], _ :: _ => false
  | c :: cs, p :: ps => c == p && strStartsList cs ps

/-- Does `pat` occur as a contiguous segment of `s`?  Models Go
`strings.Contains` (on byte strings; all inputs here are ASCII). -/
def containsAux : List Char → List Char → Bool
  | [], pat => pat.isEmpty
  | c :: rest, pat => strStartsList (c :: rest) pat || containsAux rest pat

/-- Go `strings.Contains`. -/
def strContains (s pat : String) : Bool := containsAux s.data pat.data

/-- Go `strings.HasPrefix`. -/
def strStarts (s pat : String) : Bool := strStartsList s.data pat.data

/-- Go `strings.HasSuffix`. -/
def strEnds (s pat : String) : Bool := strStartsList s.data.reverse pat.data.reverse

/-- Go `strings.ToLower`, restricted to ASCII (every string the program
compares case-insensitively is ASCII). -/
def strLower (s : String) : String := ⟨s.data.map Char.toLower⟩

/-- Go `strings.ToUpper`, restricted to ASCII. -/
def strUpper (s : String) : String := ⟨s.data.map Char.toUpper⟩

/-- CategoryRule defines how to match a category based on filename
patterns (source: `CategoryRule` struct). -/
structure CategoryRule where
  Category : String
  Keywords : List String
  Exclusions : List String := []
  Priority : Int := 0
  Confidence : Rat := 0
deriving Repr, DecidableEq

/-- The ordered rule table (source: `CategoryRules`).  Order matters:
rules are checked in order. -/
def CategoryRules : List CategoryRule := [
  { Category := "SFX_Drone", Keywords := ["drone"], Priority := 10, Confidence := 0.8 },
  { Category := "Music", Keywords := ["loop"], Priority := 10, Confidence := 0.8 },
  { Category := "SFX_Riser", Keywords := ["riser"], Priority := 10, Confidence := 0.8 },
  { Category := "SFX_Time",
    Keywords := ["slowmotion", "slow motion", "slow-motion", "timelapse", "time lapse", "time-lapse"],
    Priority := 10, Confidence := 0.8 },
  { Category := "SFX_Transition", Keywords := ["transition"], Priority := 10, Confidence := 0.7 },
  { Category := "SFX_Whoosh", Keywords := ["whoosh"], Priority := 10, Confidence := 0.8 },
  { Category := "SFX_Voice",
    Keywords := ["scream", "voice", "dialogue", "speech", "male", "female", "grunt", "groan"],
    Priority := 8, Confidence := 0.8 },
  { Category := "SFX_Creature",
    Keywords := ["creature", "monster", "animal", "beast", "roar", "growl", "howl", "moan",
                 "cat", "dog", "cow", "rooster", "monkey", "meow", "bark", "moo", "pur"],
    Priority := 8, Confidence := 0.8 },
  { Category := "Ambient",
    Keywords := ["wind", "rain", "thunder", "storm", "water", "ocean", "forest", "nature",
                 "atmos", "atmosphere", "ambient", "ambience", "flame", "flames", "burning",
                 "ember", "campfire", "bonfire", "jungle", "rainforest", "insect", "cicada",
                 "cricket", "frog", "waterfall", "river", "stream", "wave", "beach",
                 "underwater", "monsoon", "downpour", "raindrop", "lightning", "wind chime",
                 "windchime", "city", "urban", "traffic", "crowd", "market", "construction",
                 "airport", "station", "restaurant", "kitchen", "street", "highway",
                 "freeway", "intersection", "walla", "room tone", "roomtone"],
    Priority := 9, Confidence := 0.8 },
  { Category := "SFX_Weapon",
    Keywords := ["gun", "weapon", "shot", "bullet", "sword", "slash", "punch", "combat",
                 "gunfire", "firearm", "samurai", "kung fu", "karate"],
    Priority := 7, Confidence := 0.8 },
  { Category := "SFX_Impact",
    Keywords := ["explosion", "explode", "impact", "crash", "slam", "thud", "bang", "boom",
                 "gong", "hit"],
    Priority := 7, Confidence := 0.8 },
  { Category := "SFX_Footstep",
    Keywords := ["footstep", "step", "walk", "run", "jump", "land"],
    Priority := 7, Confidence := 0.8 },
  { Category := "SFX_Vehicle",
    Keywords := ["vehicle", "car", "engine", "motor", "tire", "wheel", "drive", "bus",
                 "train", "truck", "motorbike", "motorcycle", "tuktuk", "aeroplane",
                 "airplane", "ferry", "boat", "driveby", "drive-by", "pass by", "passby",
                 "hoot", "honk", "horn"],
    Exclusions := ["atmos", "atmosphere", "ambient", "ambience", "room tone", "roomtone"],
    Priority := 6, Confidence := 0.8 },
  { Category := "SFX_UI",
    Keywords := ["ui", "interface", "button", "click", "select", "hover", "menu", "notification"],
    Priority := 7, Confidence := 0.9 },
  { Category := "SFX_Alarm",
    Keywords := ["alarm", "alert", "siren", "warning", "beep", "buzz"],
    Priority := 7, Confidence := 0.8 },
  { Category := "SFX_Mechanical",
    Keywords := ["mechanical", "machine", "gear", "whir", "clank", "robot"],
    Priority := 6, Confidence := 0.8 },
  { Category := "SFX_Object",
    Keywords := ["door", "open", "close", "creak", "squeak", "hinge", "object", "item",
                 "pickup", "drop"],
    Priority := 6, Confidence := 0.8 },
  { Category := "SFX_Percussion",
    Keywords := ["drum", "percussion", "beat", "kick", "snare", "cymbal", "gong",
                 "tambourine", "bell", "clap"],
    Priority := 7, Confidence := 0.8 },
  { Category := "SFX_Traditional",
    Keywords := ["traditional", "ceremony", "ceremonial", "temple", "chant", "chanting",
                 "pray", "praying", "royal", "emperor", "ancient"],
    Priority := 7, Confidence := 0.8 },
  { Category := "Music",
    Keywords := ["music", "song", "track", "score", "melody", "theme"],
    Priority := 6, Confidence := 0.8 }]

/-- The keyword loop of `matchCategoryRule`: Go returns from inside the
loop (`some b`), or falls through (`none`).  A contained keyword normally
returns `true`; the keyword `"fire"` on the `SFX_Weapon` rule returns the
weapon-co-occurrence test instead. -/
def scanKeywords (nameLower cat : String) : List String → Option Bool
  | [] => none
  | kw :: rest =>
    if strContains nameLower kw then
      if cat == "SFX_Weapon" && kw == "fire" then
        some (strContains nameLower "gunfire" || strContains nameLower "firearm" ||
              strContains nameLower "fire_" || strContains nameLower "_fire" ||
              (strContains nameLower "gun" || strContains nameLower "weapon" ||
               strContains nameLower "shot"))
      else some true
    else scanKeywords nameLower cat rest

/-- matchCategoryRule checks if a filename matches a category rule
(source: `matchCategoryRule`).  Exclusions are checked first; then the
keyword loop; then the standalone-"fire" special handling of the
`Ambient` rule. -/
def matchCategoryRule (nameLower : String) (rule : CategoryRule) : Bool :=
  if rule.Exclusions.any (fun e => strContains nameLower e) then false
  else
    match scanKeywords nameLower rule.Category rule.Keywords with
    | some b => b
    | none =>
      if rule.Category == "Ambient" then
        if (nameLower == "fire" || strStarts nameLower "fire " || strEnds nameLower " fire") &&
           (!strContains nameLower "gun" && !strContains nameLower "weapon" &&
            !strContains nameLower "shot" && !strContains nameLower "gunfire" &&
            !strContains nameLower "firearm") then
          true
        else false
      else false

/-- The rule iteration of `InferCategory`: first matching rule wins. -/
def inferFirst (nameLower : String) : List CategoryRule → String
  | [] => "SFX"
  | r :: rest => if matchCategoryRule nameLower r then r.Category else inferFirst nameLower rest

/-- InferCategory matches a filename against the rule table and returns
the first match, defaulting to "SFX" (source: `InferCategory`; the Go
code copies the slice before iterating, which is a no-op). -/
def InferCategory (filename : String) : String :=
  inferFirst (strLower filename) CategoryRules

/-- Go map lookup on an association table with distinct keys (first
match). -/
def lookupTable : List (String × String) → String → Option String
  | [], _ => none
  | (k, v) :: rest, key => if k == key then some v else lookupTable rest key

/-- CategoryNormalization maps various category name formats to
standardized names (source: `CategoryNormalization`). -/
def CategoryNormalization : List (String × String) := [
  ("PE", "SFX_Percussion"),
  ("PERCUSSION", "SFX_Percussion"),
  ("SFX", "SFX"),
  ("VOICE", "SFX_Voice"),
  ("CREATURE", "SFX_Creature"),
  ("WEAPON", "SFX_Weapon"),
  ("IMPACT", "SFX_Impact"),
  ("FOOTSTEP", "SFX_Footstep"),
  ("VEHICLE", "SFX_Vehicle"),
  ("ALARM", "SFX_Alarm"),
  ("MECHANICAL", "SFX_Mechanical"),
  ("OBJECT", "SFX_Object"),
  ("AMBIENT", "Ambient"),
  ("MUSIC", "Music"),
  ("UI", "UI"),
  ("DIALOGUE", "Dialogue"),
  ("DRONE", "SFX_Drone"),
  ("LOOP", "Music"),
  ("RISER", "SFX_Riser"),
  ("SLOWMOTION", "SFX_Time"),
  ("SLOW_MOTION", "SFX_Time"),
  ("TIMELAPSE", "SFX_Time"),
  ("TIME_LAPSE", "SFX_Time"),
  ("TRANSITION", "SFX_Transition"),
  ("WHOOSH", "SFX_Whoosh"),
  ("TRADITIONAL", "SFX_Traditional"),
  ("CEREMONIAL", "SFX_Traditional"),
  ("STRING", "SFX_String"),
  ("CITY", "Ambient"),
  ("URBAN", "Ambient")]

/-- NormalizeCategory converts various category name formats to
standardized names (source: `NormalizeCategory`, the standalone function
consulting `CategoryNormalization`). -/
def NormalizeCategory (cat : String) : String :=
  let catUpper := strUpper cat
  match lookupTable CategoryNormalization catUpper with
  | some normalized => normalized
  | none =>
    if !strContains catUpper "_" && !strContains catUpper "MUSIC" &&
       !strContains catUpper "AMBIENT" then
      "SFX_" ++ catUpper
    else cat

/-- A category-to-score map, modelled as an association list in
insertion order (Go `map[string]float64`; absent key reads as `0`). -/
abbrev Scores := List (String × Rat)

/-- Go `scores[cat] += v` (also inserts a previously-absent key). -/
def addScore : Scores → String → Rat → Scores
  | [], cat, v => [(cat, v)]
  | (k, s) :: rest, cat, v =>
    if k == cat then (k, s + v) :: rest else (k, s) :: addScore rest cat v

/-- Go `scores[cat]` read (0 when absent). -/
def getScore : Scores → String → Rat
  | [], _ => 0
  | (k, s) :: rest, cat => if k == cat then s else getScore rest cat

/-- InferCategoryWithConfidenceScores accumulates each matching rule's
confidence into that rule's category entry (source:
`InferCategoryWithConfidenceScores`). -/
def InferCategoryWithConfidenceScores (filename : String) : Scores :=
  let nameLower := strLower filename
  CategoryRules.foldl
    (fun scores rule =>
      if matchCategoryRule nameLower rule then addScore scores rule.Category rule.Confidence
      else scores)
    []

/-- Six coarse spectral scalars (source: `SpectralFeatures`). -/
structure SpectralFeatures where
  LowEnergy : Rat := 0
  MidEnergy : Rat := 0
  HighEnergy : Rat := 0
  ZeroCrossing : Rat := 0
  Centroid : Rat := 0
  Energy : Rat := 0
deriving Repr, DecidableEq

/-- Decoded per-file metadata (source: `AudioMetadata`).  `Duration` is
in nanoseconds, as Go `time.Duration`. -/
structure AudioMetadata where
  Duration : Int := 0
  SampleRate : Int := 0
  Channels : Int := 0
  BitDepth : Int := 0
  Bitrate : Int := 0
  Format : String := ""
  Title : String := ""
  Artist : String := ""
  Album : String := ""
  Genre : String := ""
  Year : Int := 0
  Comment : String := ""
  HasEmbeddedTags : Bool := false
  SpectralFeatures : Option SpectralFeatures := none
  Fingerprint : String := ""
deriving Repr, DecidableEq

/-- One second in `time.Duration` units (nanoseconds). -/
def timeSecond : Int := 1000000000

/-- ApplyMetadataScoring adds confidence scores based on audio metadata
(source: `ApplyMetadataScoring`); `none` models a nil `*AudioMetadata`,
for which the Go function returns without touching the map. -/
def ApplyMetadataScoring (scores : Scores) (meta : Option AudioMetadata)
    (filenameLower : String) : Scores :=
  match meta with
  | none => scores
  | some m =>
    let s1 :=
      if m.Duration > 0 then
        if m.Duration < 2 * timeSecond then addScore scores "SFX_UI" 0.6
        else if m.Duration < 5 * timeSecond then addScore scores "SFX" 0.4
        else if m.Duration > 30 * timeSecond then
          let a := addScore scores "Ambient" 0.5
          let b :=
            if strContains filenameLower "fire" && !strContains filenameLower "gun" &&
               !strContains filenameLower "weapon" && !strContains filenameLower "shot" &&
               !strContains filenameLower "gunfire" && !strContains filenameLower "firearm" then
              let a2 := addScore a "Ambient" 0.4
              if getScore a2 "SFX_Weapon" > 0 then addScore a2 "SFX_Weapon" (-0.3) else a2
            else a
          if m.HasEmbeddedTags && m.Genre != "" then
            if strContains (strLower m.Genre) "music" then addScore b "Music" 0.6 else b
          else b
        else scores
      else scores
    let s2 :=
      if m.Channels == 1 then addScore s1 "SFX" 0.3
      else if m.Channels ≥ 5 then addScore s1 "Ambient" 0.4
      else s1
    if m.HasEmbeddedTags && m.Genre != "" then
      let genreLower := strLower m.Genre
      let g1 :=
        if strContains genreLower "voice" || strContains genreLower "dialogue" then
          addScore s2 "SFX_Voice" 0.7
        else s2
      let g2 := if strContains genreLower "music" then addScore g1 "Music" 0.7 else g1
      if strContains genreLower "ambient" then addScore g2 "Ambient" 0.7 else g2
    else s2

/-- Reference form of the amended NormalizeCategory claim: table lookup,
then `SFX_` auto-prefix of the uppercased label unless it has an
underscore or contains `MUSIC`/`AMBIENT` as a substring. -/
def normalizeCategoryAmendedRef (cat : String) : String :=
  let catUpper := strUpper cat
  match lookupTable CategoryNormalization catUpper with
  | some v => v
  | none =>
    if strContains catUpper "_" = true ∨ strContains catUpper "MUSIC" = true ∨
       strContains catUpper "AMBIENT" = true then
      cat
    else "SFX_" ++ catUpper

/-- Category plus normalized confidence (source: `CategoryResult`). -/
structure CategoryResult where
  Category : String
  Confidence : Rat
deriving Repr, DecidableEq

/-- The score map accumulated by `InferCategoryWithConfidence` for a
non-nil metadata value: filename rule scores, then metadata scoring,
then the inline spectral-feature scoring block. -/
def accumulatedScores (m : AudioMetadata) (filename : String) : Scores :=
  let filenameLower := strLower filename
  let scores := InferCategoryWithConfidenceScores filename
  let scores := ApplyMetadataScoring scores (some m) filenameLower
  match m.SpectralFeatures with
  | none => scores
  | some sf =>
    let s1 :=
      if sf.ZeroCrossing > 0.15 then
        addScore (addScore scores "SFX_Impact" 0.3) "SFX_Weapon" 0.3
      else scores
    let s2 :=
      if sf.LowEnergy > 0.1 ∧ sf.LowEnergy > sf.MidEnergy ∧ sf.LowEnergy > sf.HighEnergy then
        addScore s1 "SFX_Impact" 0.4
      else s1
    let s3 :=
      if sf.HighEnergy > 0.05 ∧ sf.HighEnergy > sf.MidEnergy then
        addScore (addScore s2 "SFX_UI" 0.3) "SFX_Impact" 0.2
      else s2
    let s4 :=
      if sf.LowEnergy > 0.01 ∧ sf.MidEnergy > 0.01 ∧ sf.HighEnergy > 0.01 then
        let balance := min sf.LowEnergy (min sf.MidEnergy sf.HighEnergy) /
          max sf.LowEnergy (max sf.MidEnergy sf.HighEnergy)
        if balance > 0.3 then addScore (addScore s3 "Ambient" 0.3) "Music" 0.2 else s3
      else s3
    if sf.Centroid < 500 then addScore s4 "Ambient" 0.2
    else if sf.Centroid > 2000 then addScore s4 "SFX_UI" 0.2
    else s4

/-- The best-category selection loop of `InferCategoryWithConfidence`:
start from `("SFX", 0.0)` and keep any strictly larger score. -/
def selectBest (scores : Scores) : String × Rat :=
  scores.foldl (fun best p => if p.2 > best.2 then (p.1, p.2) else best) ("SFX", 0)

/-- InferCategoryWithConfidence combines filename patterns, metadata and
spectral features into a category with confidence (source:
`InferCategoryWithConfidence`).  A nil `*AudioMetadata` makes the Go
function dereference `meta.SpectralFeatures` and panic, modelled as
`none`; its only caller guards against nil. -/
def InferCategoryWithConfidence (meta : Option AudioMetadata) (filename : String) :
    Option CategoryResult :=
  match meta with
  | none => none
  | some m =>
    let scores := accumulatedScores m filename
    let best := selectBest scores
    let confidence := min (best.2 / 1.5) 1
    let confidence := if confidence < 0.3 then 0.3 else confidence
    some { Category := best.1, Confidence := confidence }

/-- The `SFX_Weapon` rule (index 9 of `CategoryRules`). -/
def weaponRule : CategoryRule :=
  CategoryRules.getD 9 { Category := "", Keywords := [] }

/-- The `Ambient` rule (index 8 of `CategoryRules`). -/
def ambientRule : CategoryRule :=
  CategoryRules.getD 8 { Category := "", Keywords := [] }

/-- Does the sign change between two consecutive samples, under the
`>= 0` versus `< 0` test of `calculateSpectralFeatures`? -/
def signChange (a b : Rat) : Prop := (a ≥ 0 ∧ b < 0) ∨ (a < 0 ∧ b ≥ 0)

instance (a b : Rat) : Decidable (signChange a b) :=
  inferInstanceAs (Decidable (_ ∨ _))

/-- The zero-crossing loop of `calculateSpectralFeatures`, carrying the
previous sample. -/
def zcPair : Rat → List Rat → Nat
  | _, [] => 0
  | prev, x :: rest => (if signChange prev x then 1 else 0) + zcPair x rest

/-- Count of sign changes between consecutive samples (the `i = 1..n-1`
loop of `calculateSpectralFeatures`). -/
def zcLoop : List Rat → Nat
  | [] => 0
  | s0 :: rest => zcPair s0 rest

/-- The windowed band-energy accumulation loop of
`calculateSpectralFeatures`: for `i` from `w` to `n-1`, add
`(s[i]-s[i-w])·(s[i]-s[i-w])`. -/
def bandLoop (samples : List Rat) (w : Nat) : Rat :=
  (List.range' w (samples.length - w)).foldl
    (fun acc i =>
      acc + (samples.getD i 0 - samples.getD (i - w) 0) *
        (samples.getD i 0 - samples.getD (i - w) 0))
    0

/-- The spectral-centroid accumulation loop of
`calculateSpectralFeatures`: weighted and total magnitude sums for `i`
from `1` to `n-1`. -/
def centroidLoop (samples : List Rat) (sampleRate : Int) : Rat × Rat :=
  (List.range' 1 (samples.length - 1)).foldl
    (fun (acc : Rat × Rat) (i : Nat) =>
      let freq := (i : Rat) * (sampleRate : Rat) / (samples.length : Rat)
      let magnitude := |samples.getD i 0 - samples.getD (i - 1) 0|
      (acc.1 + freq * magnitude, acc.2 + magnitude))
    (0, 0)

/-- calculateSpectralFeatures computes frequency band energies, zero
crossing rate, total energy and spectral centroid (source:
`calculateSpectralFeatures`).  The three band energies are only set when
the sample count exceeds the respective window (100/20/5); otherwise
they stay at their zero initialisation. -/
def calculateSpectralFeatures (samples : List Rat) (sampleRate : Int) : SpectralFeatures :=
  let n := samples.length
  let zc := (zcLoop samples : Rat) / (n : Rat)
  let totalEnergy := samples.foldl (fun acc s => acc + s * s) 0
  let energy := totalEnergy / (n : Rat)
  let windowLow := 100
  let windowMid := 20
  let windowHigh := 5
  let lowFreqEnergy :=
    if n > windowLow then bandLoop samples windowLow / ((n : Rat) - (windowLow : Rat)) else 0
  let midFreqEnergy :=
    if n > windowMid then bandLoop samples windowMid / ((n : Rat) - (windowMid : Rat)) else 0
  let highFreqEnergy :=
    if n > windowHigh then bandLoop samples windowHigh / ((n : Rat) - (windowHigh : Rat)) else 0
  let cent := centroidLoop samples sampleRate
  let centroid := if cent.2 > 0 then cent.1 / cent.2 else (sampleRate : Rat) / 4
  { LowEnergy := lowFreqEnergy, MidEnergy := midFreqEnergy, HighEnergy := highFreqEnergy,
    ZeroCrossing := zc, Centroid := centroid, Energy := energy }

/-- Reference zero-crossing count from the spec: the number of indices
`i` in `[1, n)` whose sample changes sign against its predecessor. -/
def zcRefCount (samples : List Rat) : Nat :=
  ∑ i ∈ Finset.Ico 1 samples.length,
    if signChange (samples.getD (i - 1) 0) (samples.getD i 0) then 1 else 0

/-- Reference total energy from the spec: the mean of the squared
samples. -/
def energyRef (samples : List Rat) : Rat :=
  (∑ i ∈ Finset.range samples.length, (samples.getD i 0) ^ 2) / (samples.length : Rat)

/-- Reference band energy from the spec: for window `w`, the sum of
`(s[i]-s[i-w])²` over `i` in `[w, n)` divided by `n-w` when `n > w`,
and `0` otherwise. -/
def bandRef (samples : List Rat) (w : Nat) : Rat :=
  if samples.length > w then
    (∑ i ∈ Finset.Ico w samples.length,
      (samples.getD i 0 - samples.getD (i - w) 0) ^ 2) /
      ((samples.length : Rat) - (w : Rat))
  else 0

/-- UTF-8 encoding of one character (Go strings are UTF-8; the byte
conversion `[]byte(s)` yields exactly these bytes). -/
def utf8EncodeChar (c : Char) : List Nat :=
  let n := c.toNat
  if n < 0x80 then [n]
  else if n < 0x800 then [0xC0 + n / 64, 0x80 + n % 64]
  else if n < 0x10000 then [0xE0 + n / 4096, 0x80 + (n / 64) % 64, 0x80 + n % 64]
  else [0xF0 + n / 262144, 0x80 + (n / 4096) % 64, 0x80 + (n / 64) % 64, 0x80 + n % 64]

/-- The UTF-8 bytes of a string, as natural numbers below 256. -/
def utf8Bytes (s : String) : List Nat :=
  s.data.foldr (fun c acc => utf8EncodeChar c ++ acc) []

/-- Big-endian byte expansion of a natural number into `k` bytes. -/
def toBytesBE : Nat → Nat → List Nat
  | 0, _ => []
  | k + 1, n => toBytesBE k (n / 256) ++ [n % 256]

/-- Right rotation of a 32-bit word represented as a `Nat < 2^32`. -/
def rotr32 (n x : Nat) : Nat := x / 2 ^ n + x % 2 ^ n * 2 ^ (32 - n)

/-- SHA-256 message-schedule sigma functions. -/
def ssig0 (x : Nat) : Nat := rotr32 7 x ^^^ rotr32 18 x ^^^ x / 2 ^ 3

/-- SHA-256 message-schedule sigma function (second). -/
def ssig1 (x : Nat) : Nat := rotr32 17 x ^^^ rotr32 19 x ^^^ x / 2 ^ 10

/-- SHA-256 compression Sigma function (first). -/
def bsig0 (x : Nat) : Nat := rotr32 2 x ^^^ rotr32 13 x ^^^ rotr32 22 x

/-- SHA-256 compression Sigma function (second). -/
def bsig1 (x : Nat) : Nat := rotr32 6 x ^^^ rotr32 11 x ^^^ rotr32 25 x

/-- The 64 SHA-256 round constants. -/
def sha256K : List Nat := [
  1116352408, 1899447441, 3049323471, 3921009573, 961987163,
  1508970993, 2453635748, 2870763221, 3624381080, 310598401,
  607225278, 1426881987, 1925078388, 2162078206, 2614888103,
  3248222580, 3835390401, 4022224774, 264347078, 604807628,
  770255983, 1249150122, 1555081692, 1996064986, 2554220882,
  2821834349, 2952996808, 3210313671, 3336571891, 3584528711,
  113926993, 338241895, 666307205, 773529912, 1294757372,
  1396182291, 1695183700, 1986661051, 2177026350, 2456956037,
  2730485921, 2820302411, 3259730800, 3345764771, 3516065817,
  3600352804, 4094571909, 275423344, 430227734, 506948616,
  659060556, 883997877, 958139571, 1322822218, 1537002063,
  1747873779, 1955562222, 2024104815, 2227730452, 2361852424,
  2428436474, 2756734187, 3204031479, 3329325298]

/-- The SHA-256 initial hash state. -/
def sha256H0 : List Nat := [
  1779033703, 3144134277, 1013904242, 2773480762, 1359893119,
  2600822924, 528734635, 1541459225]

/-- SHA-256 padding: append `0x80`, zeros to 56 mod 64, then the
64-bit big-endian bit length. -/
def sha256Pad (msg : List Nat) : List Nat :=
  let len := msg.length
  let padZeros := (119 - len % 64) % 64
  msg ++ [0x80] ++ List.replicate padZeros 0 ++ toBytesBE 8 (len * 8)

/-- Group bytes into big-endian 32-bit words. -/
def bytesToWords : List Nat → List Nat
  | b0 :: b1 :: b2 :: b3 :: rest =>
    (((b0 * 256 + b1) * 256 + b2) * 256 + b3) :: bytesToWords rest
  | _ => []

/-- Split a byte list into 64-byte chunks. -/
def chunksOf64 : List Nat → List (List Nat)
  | [] => []
  | x :: rest => (x :: rest).take 64 :: chunksOf64 ((x :: rest).drop 64)
termination_by l => l.length
decreasing_by simp [List.length_drop]; omega

/-- One step of the SHA-256 message-schedule extension: append word
`w[i] = ssig1(w[i-2]) + w[i-7] + ssig0(w[i-15]) + w[i-16] mod 2^32`. -/
def schedRound (w : List Nat) : List Nat :=
  let i := w.length
  w ++ [(ssig1 (w.getD (i - 2) 0) + w.getD (i - 7) 0 + ssig0 (w.getD (i - 15) 0) +
    w.getD (i - 16) 0) % 2 ^ 32]

/-- Iterate the message-schedule extension `k` times. -/
def buildSched : Nat → List Nat → List Nat
  | 0, w => w
  | k + 1, w => buildSched k (schedRound w)

/-- One SHA-256 compression round on the eight working registers. -/
def compressRound (w : List Nat) (t : Nat) (st : List Nat) : List Nat :=
  let a := st.getD 0 0
  let b := st.getD 1 0
  let c := st.getD 2 0
  let d := st.getD 3 0
  let e := st.getD 4 0
  let f := st.getD 5 0
  let g := st.getD 6 0
  let h := st.getD 7 0
  let ch := (e &&& f) ^^^ ((2 ^ 32 - 1 - e) &&& g)
  let temp1 := (h + bsig1 e + ch + sha256K.getD t 0 + w.getD t 0) % 2 ^ 32
  let maj := (a &&& b) ^^^ (a &&& c) ^^^ (b &&& c)
  let temp2 := (bsig0 a + maj) % 2 ^ 32
  [(temp1 + temp2) % 2 ^ 32, a, b, c, (d + temp1) % 2 ^ 32, e, f, g]

/-- Process one 64-byte chunk against the running hash state. -/
def processChunk (h : List Nat) (chunk : List Nat) : List Nat :=
  let w := buildSched 48 (bytesToWords chunk)
  let st := (List.range 64).foldl (fun s t => compressRound w t s) h
  (List.range 8).map (fun i => (h.getD i 0 + st.getD i 0) % 2 ^ 32)

/-- SHA-256 digest of a byte list, as 32 bytes. -/
def sha256Bytes (msg : List Nat) : List Nat :=
  let final := (chunksOf64 (sha256Pad msg)).foldl processChunk sha256H0
  final.foldr (fun wrd acc => toBytesBE 4 wrd ++ acc) []

/-- Lowercase hexadecimal digit. -/
def hexDigit (n : Nat) : Char :=
  if n < 10 then Char.ofNat (48 + n) else Char.ofNat (87 + n)

/-- Lowercase hexadecimal encoding of a byte list (Go
`hex.EncodeToString`). -/
def hexEncode (bytes : List Nat) : String :=
  ⟨bytes.foldr (fun b acc => hexDigit (b / 16) :: hexDigit (b % 16) :: acc) []⟩

/-- Decimal rendering of an integer (Go `%d`). -/
def intToStr (i : Int) : String := toString i

/-- The delimited string hashed by `generateFingerprint`:
`sampleRate|channels|bitDepth|int(duration seconds)|format|title`.
`int(d.Seconds())` truncates toward zero, modelled by `Int.div` on the
nanosecond count (the float rounding of `Seconds()` is immaterial at
the magnitudes involved). -/
def fpData (meta : AudioMetadata) : String :=
  intToStr meta.SampleRate ++ "|" ++ intToStr meta.Channels ++ "|" ++
  intToStr meta.BitDepth ++ "|" ++ intToStr (meta.Duration.tdiv timeSecond) ++ "|" ++
  meta.Format ++ "|" ++ meta.Title

/-- generateFingerprint hashes the delimited metadata string with
SHA-256 and keeps the first 16 bytes as 32 hex characters (source:
`generateFingerprint`). -/
def generateFingerprint (meta : AudioMetadata) : String :=
  hexEncode ((sha256Bytes (utf8Bytes (fpData meta))).take 16)

/-- The tuple of metadata fields that the claim says determines the
fingerprint. -/
def fpTuple (meta : AudioMetadata) : Int × Int × Int × Int × String × String :=
  (meta.SampleRate, meta.Channels, meta.BitDepth, meta.Duration.tdiv timeSecond,
   meta.Format, meta.Title)

/-- Concrete metadata with the delimiter inside `Format` (used to
refute the only-if direction of the fingerprint claim). -/
def metaPipeInFormat : AudioMetadata :=
  { SampleRate := 1, Channels := 1, BitDepth := 1, Duration := 0,
    Format := "x|y", Title := "z" }

/-- Concrete metadata with the delimiter inside `Title`, producing the
same delimited string as `metaPipeInFormat`. -/
def metaPipeInTitle : AudioMetadata :=
  { SampleRate := 1, Channels := 1, BitDepth := 1, Duration := 0,
    Format := "x", Title := "y|z" }

/-- Concrete WAV metadata tagged with genre "rock". -/
def metaGenreRock : AudioMetadata :=
  { SampleRate := 44100, Channels := 2, BitDepth := 16, Duration := 5000000000,
    Format := "WAV", Title := "Test", Genre := "rock" }

/-- The same WAV metadata with genre "ambient": its
fingerprint-relevant tuple is unchanged. -/
def metaGenreAmbient : AudioMetadata :=
  { SampleRate := 44100, Channels := 2, BitDepth := 16, Duration := 5000000000,
    Format := "WAV", Title := "Test", Genre := "ambient" }

/-- Embedded tag data as returned by a successful `tag.ReadFrom`. -/
structure TagInfo where
  title : String := ""
  artist : String := ""
  album : String := ""
  genre : String := ""
  comment : String := ""
  format : String := ""
  year : Int := 0
deriving Repr, DecidableEq

/-- Abstract content of one file, as seen through the decoding
libraries: the embedded-tag read result (`none` = error), the WAV
container validity and header, the container duration (`none` = error),
the stat size, and the interleaved PCM integer stream delivered by
`PCMBuffer`. -/
structure FileData where
  tagData : Option TagInfo := none
  wavValid : Bool := false
  wavFormat : Option (Int × Int) := none
  wavDuration : Option Int := none
  fileSize : Int := 0
  pcm : List Int := []
deriving Repr

/-- The zero `AudioMetadata` that `AnalyzeFile` starts from. -/
def emptyMeta : AudioMetadata := {}

/-- readEmbeddedTags copies embedded tags into the metadata; a read
error is non-fatal and leaves the metadata untouched (source:
`readEmbeddedTags`, whose error is ignored by `AnalyzeFile`). -/
def readEmbeddedTags (fd : FileData) (meta : AudioMetadata) : AudioMetadata :=
  match fd.tagData with
  | none => meta
  | some t =>
    { meta with
      HasEmbeddedTags := true, Title := t.title, Artist := t.artist,
      Album := t.album, Genre := t.genre, Year := t.year, Comment := t.comment,
      Format := t.format }

/-- The header-based duration estimate of `analyzeWAV` (file size minus
the 44-byte header, divided by frame size, divided by the sample rate;
the float second count is truncated into `time.Duration`). -/
def wavEstimate (m : AudioMetadata) (fd : FileData) (sr ch : Int) : AudioMetadata :=
  let bytesPerSample := m.BitDepth.tdiv 8
  if bytesPerSample > 0 then
    let dataSize := fd.fileSize - 44
    if dataSize > 0 then
      let totalSamples := dataSize.tdiv (ch * bytesPerSample)
      if totalSamples > 0 then
        { m with Duration := (totalSamples * 1000000000).tdiv sr }
      else m
    else m
  else m

/-- analyzeWAV validates the container, reads sample rate and channel
count from the header with an assumed 16-bit depth, determines the
duration (container duration, else size estimate), computes the
bitrate, and fingerprints the result (source: `analyzeWAV`). -/
def analyzeWAV (fd : FileData) (m0 : AudioMetadata) : Option AudioMetadata :=
  if !fd.wavValid then none
  else
    let m1 := { m0 with Format := "WAV" }
    let m2 :=
      match fd.wavFormat with
      | some (sr, ch) => { m1 with SampleRate := sr, Channels := ch, BitDepth := 16 }
      | none => m1
    let m3 :=
      match fd.wavFormat with
      | some (sr, ch) =>
        if sr > 0 then
          match fd.wavDuration with
          | some d => if d > 0 then { m2 with Duration := d } else wavEstimate m2 fd sr ch
          | none => wavEstimate m2 fd sr ch
        else m2
      | none => m2
    let m4 :=
      if m3.SampleRate > 0 && m3.Channels > 0 && m3.BitDepth > 0 then
        { m3 with Bitrate := m3.SampleRate * m3.Channels * m3.BitDepth }
      else m3
    some { m4 with Fingerprint := generateFingerprint m4 }

/-- analyzeCompressed reads embedded tags for the format label and
estimates the duration from the bitrate when one is known (source:
`analyzeCompressed`; the bitrate is never set on this path, so the
estimate branch is dead in practice but transcribed anyway). -/
def analyzeCompressed (fd : FileData) (m0 : AudioMetadata) : Option AudioMetadata :=
  match fd.tagData with
  | none => none
  | some t =>
    let m1 := if t.format != "" then { m0 with Format := t.format } else m0
    let m2 :=
      if m1.Bitrate > 0 then
        { m1 with Duration := (fd.fileSize * 8 * 1000000000).tdiv m1.Bitrate }
      else m1
    some m2

/-- The mono-reduction read loop of `analyzeSpectral`: consume one
frame per step (skipping `channels` interleaved values), average the
first two channels when not mono, normalize by 32768, and stop after
the frame budget or at end of stream. -/
def readSamples (channels : Nat) : Nat → List Int → List Rat
  | 0, _ => []
  | _ + 1, [] => []
  | m + 1, d0 :: rest =>
    if channels == 1 then ((d0 : Rat) / 32768) :: readSamples channels m rest
    else
      let v :=
        match rest with
        | d1 :: _ => ((d0 : Rat) + (d1 : Rat)) / 2
        | [] => (d0 : Rat)
      (v / 32768) :: readSamples channels m ((d0 :: rest).drop channels)

/-- The mono-reduced samples extracted by `analyzeSpectral`: at most
`min(2·sampleRate, 8192)` of them (the Go code starts from 8192,
replaces it by `2·sampleRate` when the rate is known, and clamps back
to 8192). -/
def analyzeSpectralSamples (sampleRate channels : Int) (pcm : List Int) : List Rat :=
  let maxSamples0 : Int := 8192
  let maxSamples1 := if sampleRate > 0 then sampleRate * 2 else maxSamples0
  let maxSamples := if maxSamples1 > 8192 then 8192 else maxSamples1
  readSamples channels.toNat maxSamples.toNat pcm

/-- analyzeSpectral performs the bounded spectral pass on a WAV file;
missing format information, an invalid container or fewer than 100
samples are errors, reported as `none` (source: `analyzeSpectral`). -/
def analyzeSpectral (wavValid : Bool) (sampleRate channels : Int) (pcm : List Int) :
    Option SpectralFeatures :=
  if sampleRate == 0 || channels == 0 then none
  else if !wavValid then none
  else
    let samples := analyzeSpectralSamples sampleRate channels pcm
    if samples.length < 100 then none
    else some (calculateSpectralFeatures samples sampleRate)

/-- Go `ext[1:]` (only ever evaluated on a non-empty extension). -/
def extTail (s : String) : String := ⟨s.data.drop 1⟩

/-- AnalyzeFile reads embedded tags (non-fatally), then dispatches on
the lowercased extension: the WAV path runs `analyzeWAV` and then the
spectral pass whose failure is swallowed; the compressed path falls
back to the bare extension label on error; unknown extensions just get
the extension label (source: `AnalyzeFile`).  An empty extension would
make Go's `ext[1:]` panic, modelled as `none`; `scanFiles` only ever
passes the seven known extensions. -/
def AnalyzeFile (ext : String) (fd : FileData) : Option AudioMetadata :=
  let m0 := readEmbeddedTags fd emptyMeta
  if ext == ".wav" then
    match analyzeWAV fd m0 with
    | none => none
    | some m =>
      some { m with
        SpectralFeatures := analyzeSpectral fd.wavValid m.SampleRate m.Channels fd.pcm }
  else if ext == ".mp3" || ext == ".ogg" || ext == ".flac" || ext == ".aac" ||
      ext == ".m4a" || ext == ".wma" then
    match analyzeCompressed fd m0 with
    | none => some { m0 with Format := extTail ext }
    | some m => some m
  else if ext.length == 0 then none
  else some { m0 with Format := extTail ext }

/-- A concrete valid 100 Hz mono WAV file with no PCM data, used as the
C8 witness input. -/
def fdSmallWav : FileData :=
  { wavValid := true, wavFormat := some (100, 1) }

/-- One record per input file (source: `AudioFile`). -/
structure AudioFile where
  OriginalPath : String := ""
  OriginalName : String := ""
  Category : String := ""
  SubCategory : String := ""
  Source : String := ""
  ID : String := ""
  NewName : String := ""
  Tags : List String := []
  AudioMeta : Option AudioMetadata := none
deriving Repr, DecidableEq

/-- A freshly scanned record, as `scanFiles` creates it. -/
def initRecord (path name : String) : AudioFile :=
  { OriginalPath := path, OriginalName := name }

/-- The per-record result-collection step of `analyzeAudioFiles`:
`none` models a worker error (the record is skipped); otherwise the
metadata is attached, the audio-inferred category is taken when the
filename category is absent or the generic `"SFX"`, and the
audio-derived tags are appended. -/
def applyAnalysis (af : AudioFile) (res : Option (Option AudioMetadata × List String × String)) :
    AudioFile :=
  match res with
  | none => af
  | some (meta, tags, cat) =>
    let af1 := { af with AudioMeta := meta }
    let af2 :=
      if cat != "" then
        if af1.Category == "" || af1.Category == "SFX" then { af1 with Category := cat }
        else af1
      else af1
    { af2 with Tags := af2.Tags ++ tags }

/-- Go `map[fp] = append(map[fp], idx)` on the fingerprint map,
modelled as an association list in first-insertion order. -/
def addFp : List (String × List Nat) → String → Nat → List (String × List Nat)
  | [], fp, i => [(fp, [i])]
  | (k, is) :: rest, fp, i =>
    if k == fp then (k, is ++ [i]) :: rest else (k, is) :: addFp rest fp i

/-- The fingerprint-collection loop of `analyzeAudioFiles`: record `i`
joins the group of its fingerprint `fps[i]` unless that fingerprint is
empty (an empty string also stands for a failed analysis, which never
reaches the map). -/
def collectGo (i : Nat) : List String → List (String × List Nat) → List (String × List Nat)
  | [], acc => acc
  | fp :: rest, acc => collectGo (i + 1) rest (if fp == "" then acc else addFp acc fp i)

/-- The fingerprint-to-indices map after the collection loop. -/
def collectFps (fps : List String) : List (String × List Nat) :=
  collectGo 0 fps []

/-- Append one tag to the record at position `idx`. -/
def appendTagAt : List AudioFile → Nat → String → List AudioFile
  | [], _, _ => []
  | f :: rest, 0, t => { f with Tags := f.Tags ++ [t] } :: rest
  | f :: rest, n + 1, t => f :: appendTagAt rest n t

/-- The inner tagging loop of `detectDuplicates`: every index of a
group receives `"duplicate"` and (under the same `len > 1` guard,
re-checked inside the loop as in the Go code) the group-number tag. -/
def dupTagIndices (files : List AudioFile) (indices : List Nat) (cnt : Nat) : List AudioFile :=
  indices.foldl
    (fun fs idx =>
      let fs1 := appendTagAt fs idx "duplicate"
      if indices.length > 1 then
        appendTagAt fs1 idx ("duplicate-group-" ++ toString cnt)
      else fs1)
    files

/-- The group loop of `detectDuplicates`: groups with at least two
members bump the running `duplicateCount` and tag their members. -/
def dupPass : Nat → List (String × List Nat) → List AudioFile → Nat × List AudioFile
  | cnt, [], files => (cnt, files)
  | cnt, (_, indices) :: rest, files =>
    if indices.length > 1 then
      dupPass (cnt + 1) rest (dupTagIndices files indices (cnt + 1))
    else dupPass cnt rest files

/-- detectDuplicates tags every fingerprint group of size at least two
(source: `detectDuplicates`, applied to the fingerprint map built by
`analyzeAudioFiles`; the map iteration order is modelled as the
first-insertion order, and the properties proved below do not depend on
that choice). -/
def detectDuplicates (fps : List String) (files : List AudioFile) : List AudioFile :=
  (dupPass 0 (collectFps fps) files).2

/-- Go `filepath.Ext` on a base name: the suffix starting at the final
dot, or empty when there is no dot. -/
def extOfAux : List Char → List Char → Option (List Char)
  | [], _ => none
  | c :: rest, acc => if c == '.' then some (c :: acc) else extOfAux rest (c :: acc)

/-- Go `filepath.Ext` (the inputs here are base names without path
separators). -/
def extOf (s : String) : String :=
  match extOfAux s.data.reverse [] with
  | none => ""
  | some l => ⟨l⟩

/-- Go `strings.TrimSuffix`. -/
def trimSuffixStr (s suf : String) : String :=
  if strEnds s suf then ⟨s.data.take (s.data.length - suf.data.length)⟩ else s

/-- The `\.(\d+)$` submatch of `parseFile`: such a match exists exactly
when the name ends in a dot followed by one or more digits, and the
captured group is then that maximal trailing digit run (everything
after the last dot). -/
def idMatch (s : String) : Option String :=
  let rev := s.data.reverse
  let ds := rev.takeWhile (fun c => c.isDigit)
  if ds.isEmpty then none
  else
    match rev.drop ds.length with
    | c :: _ => if c == '.' then some ⟨ds.reverse⟩ else none
    | [] => none

/-- Split a character list on every occurrence of `sep` (Go
`strings.Split` with a one-character separator). -/
def splitOnChar (sep : Char) : List Char → List (List Char)
  | [] => [[]]
  | c :: rest =>
    let r := splitOnChar sep rest
    if c == sep then [] :: r
    else
      match r with
      | h :: t => (c :: h) :: t
      | [] => [[c]]

/-- Go `strings.Split(name, "_")`. -/
def splitUnderscore (s : String) : List String :=
  (splitOnChar '_' s.data).map (fun l => ⟨l⟩)

/-- Go `strings.Join(parts, "_")`. -/
def joinUnderscore : List String → String
  | [] => ""
  | [p] => p
  | p :: rest => p ++ "_" ++ joinUnderscore rest

/-- Break a character list at the first occurrence of `sep`: Go
`strings.SplitN(s, sep, 2)` succeeds (two parts) exactly when `s`
contains `sep`, which is the guard `parseFile` tests first. -/
def breakAtChar (sep : Char) : List Char → Option (List Char × List Char)
  | [] => none
  | c :: rest =>
    if c == sep then some ([], rest)
    else (breakAtChar sep rest).map (fun p => (c :: p.1, p.2))

/-- The keyword chain of the processor's own `inferCategory` method
(distinct from the rule-table `InferCategory`), transcribed branch by
branch. -/
def inferCategory (name : String) : String :=
  let nameLower := strLower name
  if strContains nameLower "scream" || strContains nameLower "voice" ||
     strContains nameLower "dialogue" || strContains nameLower "speech" ||
     strContains nameLower "male" || strContains nameLower "female" ||
     strContains nameLower "grunt" || strContains nameLower "groan" then "SFX_Voice"
  else if strContains nameLower "creature" || strContains nameLower "monster" ||
     strContains nameLower "animal" || strContains nameLower "beast" ||
     strContains nameLower "roar" || strContains nameLower "growl" ||
     strContains nameLower "howl" || strContains nameLower "moan" then "SFX_Creature"
  else if strContains nameLower "gun" || strContains nameLower "weapon" ||
     strContains nameLower "shot" || strContains nameLower "bullet" ||
     strContains nameLower "sword" || strContains nameLower "slash" ||
     strContains nameLower "hit" || strContains nameLower "punch" ||
     strContains nameLower "combat" ||
     strContains nameLower "gunfire" || strContains nameLower "firearm" then "SFX_Weapon"
  else if strContains nameLower "fire" &&
     (strContains nameLower "gun" || strContains nameLower "weapon" ||
      strContains nameLower "shot" || strContains nameLower "gunfire" ||
      strContains nameLower "firearm") then "SFX_Weapon"
  else if strContains nameLower "explosion" || strContains nameLower "explode" ||
     strContains nameLower "impact" || strContains nameLower "crash" ||
     strContains nameLower "slam" || strContains nameLower "thud" ||
     strContains nameLower "bang" || strContains nameLower "boom" then "SFX_Impact"
  else if strContains nameLower "footstep" || strContains nameLower "step" ||
     strContains nameLower "walk" || strContains nameLower "run" ||
     strContains nameLower "jump" || strContains nameLower "land" then "SFX_Footstep"
  else if strContains nameLower "wind" || strContains nameLower "rain" ||
     strContains nameLower "thunder" || strContains nameLower "storm" ||
     strContains nameLower "water" || strContains nameLower "ocean" ||
     strContains nameLower "forest" || strContains nameLower "nature" ||
     strContains nameLower "atmos" || strContains nameLower "atmosphere" ||
     strContains nameLower "ambient" || strContains nameLower "ambience" ||
     strContains nameLower "flame" || strContains nameLower "flames" ||
     strContains nameLower "burning" || strContains nameLower "ember" ||
     strContains nameLower "campfire" || strContains nameLower "bonfire" ||
     (nameLower == "fire" || strStarts nameLower "fire " || strEnds nameLower " fire") then
    "Ambient"
  else if strContains nameLower "vehicle" || strContains nameLower "car" ||
     strContains nameLower "engine" || strContains nameLower "motor" ||
     strContains nameLower "tire" || strContains nameLower "wheel" ||
     strContains nameLower "drive" || strContains nameLower "vehicle" then "SFX_Vehicle"
  else if strContains nameLower "ui" || strContains nameLower "interface" ||
     strContains nameLower "button" || strContains nameLower "click" ||
     strContains nameLower "select" || strContains nameLower "hover" ||
     strContains nameLower "menu" || strContains nameLower "notification" then "SFX_UI"
  else if strContains nameLower "alarm" || strContains nameLower "alert" ||
     strContains nameLower "siren" || strContains nameLower "warning" ||
     strContains nameLower "beep" || strContains nameLower "buzz" then "SFX_Alarm"
  else if strContains nameLower "mechanical" || strContains nameLower "machine" ||
     strContains nameLower "gear" || strContains nameLower "motor" ||
     strContains nameLower "whir" || strContains nameLower "clank" then "SFX_Mechanical"
  else if strContains nameLower "door" || strContains nameLower "open" ||
     strContains nameLower "close" || strContains nameLower "creak" ||
     strContains nameLower "squeak" || strContains nameLower "hinge" then "SFX_Object"
  else if strContains nameLower "drum" || strContains nameLower "percussion" ||
     strContains nameLower "beat" || strContains nameLower "kick" ||
     strContains nameLower "snare" || strContains nameLower "cymbal" then "SFX_Percussion"
  else "SFX"

/-- The synonym table of the processor's own `normalizeCategory`
method. -/
def normalizeCategoryMap : List (String × String) := [
  ("PE", "SFX_Percussion"),
  ("PERCUSSION", "SFX_Percussion"),
  ("SFX", "SFX"),
  ("VOICE", "SFX_Voice"),
  ("CREATURE", "SFX_Creature"),
  ("WEAPON", "SFX_Weapon"),
  ("IMPACT", "SFX_Impact"),
  ("FOOTSTEP", "SFX_Footstep"),
  ("VEHICLE", "SFX_Vehicle"),
  ("ALARM", "SFX_Alarm"),
  ("MECHANICAL", "SFX_Mechanical"),
  ("OBJECT", "SFX_Object"),
  ("AMBIENT", "Ambient"),
  ("MUSIC", "Music"),
  ("UI", "UI"),
  ("DIALOGUE", "Dialogue")]

/-- The processor's own `normalizeCategory` method: it reassigns `cat`
to its uppercase form first, so the fall-through branches return the
uppercased label (unlike the standalone `NormalizeCategory`). -/
def normalizeCategory (cat : String) : String :=
  let catU := strUpper cat
  match lookupTable normalizeCategoryMap catU with
  | some normalized => normalized
  | none =>
    if !strContains catU "_" && !strContains catU "Music" && !strContains catU "Ambient" then
      "SFX_" ++ catU
    else catU

/-- Go `strings.ReplaceAll(s, "_", " ")`. -/
def underscoreToSpace (s : String) : String :=
  ⟨s.data.map (fun c => if c == '_' then ' ' else c)⟩

/-- Go `strings.Fields`: maximal whitespace-free runs. -/
def fieldsAux : List Char → List Char → List String
  | [], acc => if acc.isEmpty then [] else [⟨acc.reverse⟩]
  | c :: rest, acc =>
    if c.isWhitespace then
      if acc.isEmpty then fieldsAux rest [] else ⟨acc.reverse⟩ :: fieldsAux rest []
    else fieldsAux rest (c :: acc)

/-- Go `strings.Fields`. -/
def fieldsOf (s : String) : List String := fieldsAux s.data []

/-- generateTags rebuilds the tag list from the category, subcategory
words longer than two characters, the source code, and fixed filename
markers (source: `generateTags`).  It does not include the previous
`Tags` value. -/
def generateTags (af : AudioFile) : List String :=
  (if af.Category != "" then [af.Category] else []) ++
  (if af.SubCategory != "" then
    (fieldsOf (underscoreToSpace (strLower af.SubCategory))).filter
      (fun w => w.length > 2)
   else []) ++
  (if af.Source != "" then ["src:" ++ af.Source] else []) ++
  (if strContains (strLower af.OriginalName) "lfe" then ["lfe", "low-frequency"] else []) ++
  (if strContains (strLower af.OriginalName) "processed" then ["processed", "fx"] else []) ++
  (if strContains (strLower af.OriginalName) "attacked" ||
      strContains (strLower af.OriginalName) "pain" then ["combat", "damage"] else [])

/-- parseFile derives ID, source code, category, subcategory and a
fresh tag list from the record's original name (source: `parseFile`).
The Go method mutates the record field by field; the same final record
is assembled here in one update.  The trailing `.digits` ID and the
trailing `_code` source segment fall back to the record's previous
(always empty in the pipeline) field values when absent, exactly as the
Go code leaves the fields untouched then. -/
def parseFile (af : AudioFile) : AudioFile :=
  let name0 := trimSuffixStr af.OriginalName (extOf af.OriginalName)
  let idv :=
    match idMatch name0 with
    | some id => id
    | none => af.ID
  let name1 :=
    match idMatch name0 with
    | some id => trimSuffixStr name0 ("." ++ id)
    | none => name0
  let parts := splitUnderscore name1
  let srcv := if parts.length > 1 then parts.getLastD "" else af.Source
  let name2 := if parts.length > 1 then joinUnderscore parts.dropLast else name1
  let catv :=
    match breakAtChar '-' name2.data with
    | some (pre, _) => (⟨pre⟩ : String)
    | none => inferCategory name2
  let subv :=
    match breakAtChar '-' name2.data with
    | some (_, post) => (⟨post⟩ : String)
    | none => name2
  let afU := { af with
    ID := idv, Source := srcv, Category := normalizeCategory catv, SubCategory := subv }
  { afU with Tags := generateTags afU }

/-- A record as it stands right after duplicate detection: audio tags
and duplicate tags present, category still unset (the C3 failing
input). -/
def dupTaggedRecord : AudioFile :=
  { OriginalPath := "/in/boom_BW.wav", OriginalName := "boom_BW.wav",
    Tags := ["medium", "5-30s", "duplicate", "duplicate-group-1"] }

instance : Inhabited AudioFile := ⟨{}⟩

/-- Three freshly scanned records, used as concrete witness input for
the duplicate-detection claims. -/
def threeRecords : List AudioFile :=
  [initRecord "/in/a.wav" "a.wav", initRecord "/in/b.wav" "b.wav",
   initRecord "/in/c.wav" "c.wav"]

/-- Association-list lookup on the fingerprint map (specification
device for the grouping proofs; Go reads the map directly). -/
def lookupG : List (String × List Nat) → String → Option (List Nat)
  | [], _ => none
  | (k, is) :: rest, key => if k == key then some is else lookupG rest key

/-- The ascending list of absolute indices at which `key` occurs in a
fingerprint list starting at offset `i` (specification device: the
group of `key` in the collected map is exactly this list). -/
def occ (key : String) : Nat → List String → List Nat
  | _, [] => []
  | i, fp :: rest => if fp == key then i :: occ key (i + 1) rest else occ key (i + 1) rest

/-! ## Supporting lemmas -/

theorem scanKeywords_of_mem {n c : String} {kws : List String}
    (hne : ∀ kw ∈ kws, kw ≠ "fire") {kw : String} (hmem : kw ∈ kws)
    (hc : strContains n kw = true) :
    scanKeywords n c kws = some true := by
  induction kws with
  | nil => simp at hmem
  | cons k rest ih =>
    by_cases hk : strContains n k = true
    · have hkf : (k == "fire") = false := by
        have := hne k (by simp)
        simp [this]
      simp [scanKeywords, hk, hkf]
    · have hkkw : kw ≠ k := by
        rintro rfl; exact hk hc
      have hmem' : kw ∈ rest := by
        rcases hmem with _ | h
        · exact absurd rfl hkkw
        · assumption
      have hkna : strContains n k = false := by
        cases h : strContains n k
        · rfl
        · exact absurd h hk
      simp [scanKeywords, hkna]
      exact ih (fun k2 hk2 => hne k2 (by simp [hk2])) hmem'

theorem scanKeywords_some_true {n cat : String} {kws : List String}
    (hcat : (cat == "SFX_Weapon") = false) {b : Bool}
    (h : scanKeywords n cat kws = some b) : b = true := by
  induction kws with
  | nil => simp [scanKeywords] at h
  | cons k rest ih =>
    by_cases hk : strContains n k = true
    · simp [scanKeywords, hk, hcat] at h
      exact h
    · have hkna : strContains n k = false := by
        cases hc : strContains n k
        · rfl
        · exact absurd hc hk
      simp [scanKeywords, hkna] at h
      exact ih h

theorem inferFirst_append (n : String) (pre post : List CategoryRule) (r : CategoryRule)
    (hpre : ∀ p ∈ pre, matchCategoryRule n p = false)
    (hr : matchCategoryRule n r = true) :
    inferFirst n (pre ++ r :: post) = r.Category := by
  induction pre with
  | nil => simp [inferFirst, hr]
  | cons p ps ih =>
    have hp := hpre p (by simp)
    simp [inferFirst, hp]
    exact ih (fun q hq => hpre q (by simp [hq]))

theorem matchCategoryRule_eq_true_of_scan {n : String} {r : CategoryRule}
    (hexc : r.Exclusions.any (fun e => strContains n e) = false)
    (hscan : scanKeywords n r.Category r.Keywords = some true) :
    matchCategoryRule n r = true := by
  simp [matchCategoryRule, hexc, hscan]

theorem matchCategoryRule_standalone_fire {n : String} {r : CategoryRule}
    (hcat : r.Category = "Ambient") (hexc : r.Exclusions = [])
    (hf : (n == "fire" || strStarts n "fire " || strEnds n " fire") = true)
    (h1 : strContains n "gun" = false) (h2 : strContains n "weapon" = false)
    (h3 : strContains n "shot" = false) (h4 : strContains n "gunfire" = false)
    (h5 : strContains n "firearm" = false) :
    matchCategoryRule n r = true := by
  have hW : (r.Category == "SFX_Weapon") = false := by simp [hcat]
  cases hscan : scanKeywords n r.Category r.Keywords with
  | some b =>
    have hb := scanKeywords_some_true hW hscan
    subst hb
    simp [matchCategoryRule, hexc, hscan]
  | none =>
    rw [hcat] at hscan
    simp [matchCategoryRule, hexc, hscan, hcat, hf, h1, h2, h3, h4, h5]

/-! ## Claim C1 -/

/-- C1, counterexample.  The claim asserts that every non-excluded
filename containing a weapon trigger keyword is mapped to `SFX_Weapon`
by the single-answer matcher; but `"water gun"` contains the weapon
keyword `"gun"` (and the `SFX_Weapon` rule has no exclusions at all),
yet `InferCategory` returns `"Ambient"`, because the `Ambient` rule is
declared earlier in `CategoryRules` and its keyword `"water"` matches
first. -/
theorem C1_counterexample :
    strContains (strLower "water gun") "gun" = true ∧
    weaponRule.Exclusions = [] ∧
    InferCategory "water gun" = "Ambient" ∧
    InferCategory "water gun" ≠ "SFX_Weapon" := by
  refine ⟨by decide, by decide, by decide, by decide⟩

/-- C1, amended.  For every filename whose lowercased form contains one
of the `SFX_Weapon` trigger keywords, is not excluded (the rule has no
exclusions), and matches none of the nine rules declared before
`SFX_Weapon` in `CategoryRules`, `InferCategory` returns `"SFX_Weapon"`;
and for every filename that is the literal standalone token `"fire"`
(equal to `"fire"`, starting with `"fire "` or ending with `" fire"`)
with no weapon keyword (gun/weapon/shot/gunfire/firearm) present and
matching none of the eight rules declared before `Ambient`, it returns
`"Ambient"`. -/
theorem C1_matcher_weapon_and_standalone_fire :
    (∀ s kw : String, kw ∈ ["gun", "weapon", "shot", "bullet", "sword", "slash", "punch",
        "combat", "gunfire", "firearm", "samurai", "kung fu", "karate"] →
      strContains (strLower s) kw = true →
      (∀ r ∈ CategoryRules.take 9, matchCategoryRule (strLower s) r = false) →
      InferCategory s = "SFX_Weapon") ∧
    (∀ s : String,
      (strLower s == "fire" || strStarts (strLower s) "fire " ||
        strEnds (strLower s) " fire") = true →
      strContains (strLower s) "gun" = false →
      strContains (strLower s) "weapon" = false →
      strContains (strLower s) "shot" = false →
      strContains (strLower s) "gunfire" = false →
      strContains (strLower s) "firearm" = false →
      (∀ r ∈ CategoryRules.take 8, matchCategoryRule (strLower s) r = false) →
      InferCategory s = "Ambient") := by
  constructor
  · intro s kw hmem hc h9
    have hmem' : kw ∈ weaponRule.Keywords := by
      rw [show weaponRule.Keywords = ["gun", "weapon", "shot", "bullet", "sword", "slash",
        "punch", "combat", "gunfire", "firearm", "samurai", "kung fu", "karate"] from rfl]
      exact hmem
    have hne : ∀ k ∈ weaponRule.Keywords, k ≠ "fire" := by decide
    have hscan := scanKeywords_of_mem (n := strLower s) (c := weaponRule.Category)
      hne hmem' hc
    have hmatch : matchCategoryRule (strLower s) weaponRule = true :=
      matchCategoryRule_eq_true_of_scan (r := weaponRule) rfl hscan
    have hsplit : CategoryRules = CategoryRules.take 9 ++ weaponRule :: CategoryRules.drop 10 :=
      rfl
    unfold InferCategory
    rw [hsplit]
    exact inferFirst_append (strLower s) _ _ _ h9 hmatch
  · intro s hf h1 h2 h3 h4 h5 h8
    have hmatch : matchCategoryRule (strLower s) ambientRule = true :=
      matchCategoryRule_standalone_fire (r := ambientRule) rfl rfl hf h1 h2 h3 h4 h5
    have hsplit : CategoryRules = CategoryRules.take 8 ++ ambientRule :: CategoryRules.drop 9 :=
      rfl
    unfold InferCategory
    rw [hsplit]
    exact inferFirst_append (strLower s) _ _ _ h8 hmatch

/-- C1, witness: the amended theorem applied at the concrete filenames
`"gun"` and `"fire"`. -/
theorem C1_matcher_witness :
    InferCategory "gun" = "SFX_Weapon" ∧ InferCategory "fire" = "Ambient" :=
  ⟨C1_matcher_weapon_and_standalone_fire.1 "gun" "gun" (by decide) (by decide) (by decide),
   C1_matcher_weapon_and_standalone_fire.2 "fire" (by decide) (by decide) (by decide)
     (by decide) (by decide) (by decide) (by decide)⟩

/-! ## Claim C9 -/

/-- C9, counterexample.  The claim says a label absent from the synonym
table, without an underscore, and "not already MUSIC/AMBIENT" is
auto-prefixed with `SFX_`.  The label `"musicbox"` satisfies all three
conditions (its uppercase form `"MUSICBOX"` is not in the table, has no
underscore, and is neither `"MUSIC"` nor `"AMBIENT"`), yet
`NormalizeCategory` returns it unchanged, because the code tests
substring containment of `"MUSIC"`, not equality. -/
theorem C9_counterexample :
    lookupTable CategoryNormalization (strUpper "musicbox") = none ∧
    strContains (strUpper "musicbox") "_" = false ∧
    strUpper "musicbox" ≠ "MUSIC" ∧
    strUpper "musicbox" ≠ "AMBIENT" ∧
    NormalizeCategory "musicbox" = "musicbox" ∧
    NormalizeCategory "musicbox" ≠ "SFX_" ++ strUpper "musicbox" ∧
    NormalizeCategory "musicbox" ≠ "SFX_" ++ "musicbox" := by
  refine ⟨by decide, by decide, by decide, by decide, by decide, by decide, by decide⟩

/-- C9, amended.  `NormalizeCategory` is a pure lookup: it uppercases
the label and consults the fixed synonym table; if the uppercased label
is absent from the table, contains no underscore, and does not contain
`"MUSIC"` or `"AMBIENT"` as a substring, the result is the uppercased
label auto-prefixed with `"SFX_"`; otherwise the input is returned
unchanged with its case preserved. -/
theorem C9_normalize_category_pure_lookup :
    ∀ cat : String, NormalizeCategory cat = normalizeCategoryAmendedRef cat := by
  intro cat
  unfold NormalizeCategory normalizeCategoryAmendedRef
  cases hl : lookupTable CategoryNormalization (strUpper cat) with
  | some v => simp [hl]
  | none =>
    cases hu : strContains (strUpper cat) "_" <;>
      cases hm : strContains (strUpper cat) "MUSIC" <;>
        cases ha : strContains (strUpper cat) "AMBIENT" <;>
          simp [hl, hu, hm, ha]

/-! ## Claim C2 -/

theorem selectFold_snd_nonneg (l : Scores) (b : String × Rat) (hb : 0 ≤ b.2) :
    0 ≤ (l.foldl (fun best p => if p.2 > best.2 then (p.1, p.2) else best) b).2 := by
  induction l generalizing b with
  | nil => simpa using hb
  | cons p rest ih =>
    simp only [List.foldl_cons]
    by_cases h : p.2 > b.2
    · rw [if_pos h]
      exact ih _ (le_of_lt (lt_of_le_of_lt hb h))
    · rw [if_neg h]
      exact ih _ hb

theorem selectFold_of_le (l : Scores) (b : String × Rat)
    (h : ∀ p ∈ l, p.2 ≤ b.2) :
    l.foldl (fun best p => if p.2 > best.2 then (p.1, p.2) else best) b = b := by
  induction l with
  | nil => rfl
  | cons p rest ih =>
    have hp : ¬(p.2 > b.2) := not_lt.mpr (h p (by simp))
    simp only [List.foldl_cons, if_neg hp]
    exact ih (fun q hq => h q (by simp [hq]))

/-- C2, counterexample.  The claim quantifies over "every metadata value
(including nil metadata)", but with a nil `*AudioMetadata` the Go
function dereferences `meta.SpectralFeatures` and panics (modelled as
`none`), so no confidence is returned at all for nil metadata. -/
theorem C2_counterexample :
    InferCategoryWithConfidence none "gun_shot" = none := rfl

/-- C2, amended.  For every filename and every non-nil metadata value,
`InferCategoryWithConfidence` returns confidence
`min(bestScore/1.5, 1.0)` floored at `0.3` (where `bestScore` is the
result of the selection loop over the accumulated score map), hence the
confidence is always in `[0.3, 1.0]`; and when the accumulated score
map is empty or contains no strictly positive score, it returns the
generic default category `"SFX"` with confidence exactly `0.3`. -/
theorem C2_confidence_bounds :
    ∀ (m : AudioMetadata) (filename : String), ∃ r : CategoryResult,
      InferCategoryWithConfidence (some m) filename = some r ∧
      r.Confidence =
        max 0.3 (min ((selectBest (accumulatedScores m filename)).2 / 1.5) 1) ∧
      0.3 ≤ r.Confidence ∧ r.Confidence ≤ 1 ∧
      ((∀ p ∈ accumulatedScores m filename, p.2 ≤ 0) →
        r.Category = "SFX" ∧ r.Confidence = 0.3) := by
  intro m filename
  refine ⟨_, rfl, ?_, ?_, ?_, ?_⟩
  · show (if min ((selectBest (accumulatedScores m filename)).2 / 1.5) 1 < 0.3 then (0.3 : Rat)
      else min ((selectBest (accumulatedScores m filename)).2 / 1.5) 1) = _
    by_cases h : min ((selectBest (accumulatedScores m filename)).2 / 1.5) 1 < 0.3
    · rw [if_pos h, max_eq_left h.le]
    · rw [if_neg h, max_eq_right (not_lt.mp h)]
  · show (0.3 : Rat) ≤ if min ((selectBest (accumulatedScores m filename)).2 / 1.5) 1 < 0.3
      then (0.3 : Rat) else min ((selectBest (accumulatedScores m filename)).2 / 1.5) 1
    by_cases h : min ((selectBest (accumulatedScores m filename)).2 / 1.5) 1 < 0.3
    · rw [if_pos h]
    · rw [if_neg h]; exact not_lt.mp h
  · show (if min ((selectBest (accumulatedScores m filename)).2 / 1.5) 1 < 0.3 then (0.3 : Rat)
      else min ((selectBest (accumulatedScores m filename)).2 / 1.5) 1) ≤ 1
    by_cases h : min ((selectBest (accumulatedScores m filename)).2 / 1.5) 1 < 0.3
    · rw [if_pos h]; norm_num
    · rw [if_neg h]; exact min_le_right _ _
  · intro hall
    have hsel : selectBest (accumulatedScores m filename) = ("SFX", 0) := by
      unfold selectBest
      exact selectFold_of_le _ _ (fun p hp => hall p hp)
    constructor
    · show (selectBest (accumulatedScores m filename)).1 = "SFX"
      rw [hsel]
    · show (if min ((selectBest (accumulatedScores m filename)).2 / 1.5) 1 < 0.3 then (0.3 : Rat)
        else min ((selectBest (accumulatedScores m filename)).2 / 1.5) 1) = 0.3
      rw [hsel]
      norm_num

/-- C2, witness: the amended theorem applied to the zero metadata value
and the empty filename, whose accumulated score map is empty. -/
theorem C2_confidence_witness :
    ∃ r : CategoryResult,
      InferCategoryWithConfidence (some {}) "" = some r ∧
      r.Category = "SFX" ∧ r.Confidence = 0.3 := by
  obtain ⟨r, h1, _, _, _, h5⟩ := C2_confidence_bounds {} ""
  have hall : ∀ p ∈ accumulatedScores {} "", p.2 ≤ (0 : Rat) := by
    intro p hp
    have : accumulatedScores {} "" = [] := rfl
    rw [this] at hp
    simp at hp
  exact ⟨r, h1, (h5 hall).1, (h5 hall).2⟩

/-! ## Claim C7 -/

theorem getD_replicate_zero (n i : Nat) : (List.replicate n (0 : Rat)).getD i 0 = 0 := by
  induction n generalizing i with
  | zero => simp [List.getD]
  | succ k ih =>
    cases i with
    | zero => simp [List.replicate]
    | succ j =>
      simp only [List.replicate, List.getD_cons_succ]
      exact ih j

theorem zcPair_eq (rest : List Rat) : ∀ prev : Rat,
    zcPair prev rest = ∑ i ∈ Finset.range rest.length,
      if signChange ((prev :: rest).getD i 0) ((prev :: rest).getD (i + 1) 0) then 1 else 0 := by
  induction rest with
  | nil => intro prev; simp [zcPair]
  | cons x rest' ih =>
    intro prev
    rw [zcPair, ih x]
    rw [show (x :: rest').length = rest'.length + 1 from rfl, Finset.sum_range_succ']
    simp only [List.getD_cons_succ, List.getD_cons_zero]
    exact Nat.add_comm _ _

theorem zcLoop_eq (samples : List Rat) : zcLoop samples = zcRefCount samples := by
  cases samples with
  | nil => simp [zcLoop, zcRefCount]
  | cons s0 rest =>
    rw [zcLoop, zcPair_eq, zcRefCount]
    rw [show (s0 :: rest).length = rest.length + 1 from rfl]
    rw [Finset.sum_Ico_eq_sum_range]
    simp [Nat.add_comm]

theorem foldl_add_f (f : Rat → Rat) (l : List Rat) : ∀ a : Rat,
    l.foldl (fun acc s => acc + f s) a = a + (l.map f).sum := by
  induction l with
  | nil => intro a; simp
  | cons x t ih =>
    intro a
    rw [List.foldl_cons, ih]
    simp [add_assoc]

theorem sum_map_getD (f : Rat → Rat) (l : List Rat) :
    (l.map f).sum = ∑ i ∈ Finset.range l.length, f (l.getD i 0) := by
  induction l with
  | nil => simp
  | cons x t ih =>
    rw [show (x :: t).length = t.length + 1 from rfl, Finset.sum_range_succ']
    simp only [List.map_cons, List.sum_cons, ih, List.getD_cons_succ, List.getD_cons_zero]
    exact add_comm _ _

theorem foldl_range'_add (g : Nat → Rat) : ∀ (k s : Nat) (a : Rat),
    (List.range' s k).foldl (fun acc i => acc + g i) a = a + ∑ i ∈ Finset.Ico s (s + k), g i := by
  intro k
  induction k with
  | zero => intro s a; simp
  | succ k' ih =>
    intro s a
    rw [List.range'_succ, List.foldl_cons, ih]
    rw [Finset.sum_eq_sum_Ico_succ_bot (by omega : s < s + (k' + 1))]
    rw [show s + (k' + 1) = s + 1 + k' from by omega]
    ring

theorem bandLoop_eq_sum (samples : List Rat) (w : Nat) (h : w ≤ samples.length) :
    bandLoop samples w = ∑ i ∈ Finset.Ico w samples.length,
      (samples.getD i 0 - samples.getD (i - w) 0) ^ 2 := by
  rw [bandLoop, foldl_range'_add (fun i =>
    (samples.getD i 0 - samples.getD (i - w) 0) * (samples.getD i 0 - samples.getD (i - w) 0))]
  rw [Nat.add_sub_cancel' h, zero_add]
  exact Finset.sum_congr rfl fun i _ => (pow_two _).symm

theorem csf_zc (samples : List Rat) (r : Int) :
    (calculateSpectralFeatures samples r).ZeroCrossing =
      (zcLoop samples : Rat) / (samples.length : Rat) := rfl

theorem csf_energy (samples : List Rat) (r : Int) :
    (calculateSpectralFeatures samples r).Energy =
      samples.foldl (fun acc s => acc + s * s) 0 / (samples.length : Rat) := rfl

theorem csf_low (samples : List Rat) (r : Int) :
    (calculateSpectralFeatures samples r).LowEnergy =
      if samples.length > 100 then bandLoop samples 100 / ((samples.length : Rat) - ((100 : Nat) : Rat))
      else 0 := rfl

theorem csf_mid (samples : List Rat) (r : Int) :
    (calculateSpectralFeatures samples r).MidEnergy =
      if samples.length > 20 then bandLoop samples 20 / ((samples.length : Rat) - ((20 : Nat) : Rat))
      else 0 := rfl

theorem csf_high (samples : List Rat) (r : Int) :
    (calculateSpectralFeatures samples r).HighEnergy =
      if samples.length > 5 then bandLoop samples 5 / ((samples.length : Rat) - ((5 : Nat) : Rat))
      else 0 := rfl

theorem energy_foldl_eq (l : List Rat) :
    l.foldl (fun acc s => acc + s * s) 0 =
      ∑ i ∈ Finset.range l.length, (l.getD i 0) ^ 2 := by
  have h := foldl_add_f (fun s => s * s) l 0
  simp only at h
  rw [h, zero_add, sum_map_getD]
  exact Finset.sum_congr rfl fun i _ => (pow_two _).symm

theorem band_eq_ref (samples : List Rat) (w : Nat) :
    (if samples.length > w then bandLoop samples w / ((samples.length : Rat) - (w : Rat))
     else 0) = bandRef samples w := by
  by_cases h : samples.length > w
  · rw [if_pos h, bandRef, if_pos h, bandLoop_eq_sum _ _ (le_of_lt h)]
  · rw [if_neg h, bandRef, if_neg h]

/-- C7, confirmed.  `calculateSpectralFeatures` equals the reference
definition: for every sample sequence with at least one sample, the
zero-crossing rate is the count of sign changes (under the `>= 0`
versus `< 0` test) divided by `n`, the energy is the mean of the
squared samples, and each band energy for window `w ∈ {100, 20, 5}` is
the mean of `(s[i]-s[i-w])²` over `i ∈ [w, n)` when `n > w` and `0`
otherwise; in particular, on an all-zero sample sequence the energy,
the zero-crossing rate and all three band energies are `0`. -/
theorem C7_spectral_features_reference :
    (∀ (samples : List Rat) (sampleRate : Int), 1 ≤ samples.length →
      (calculateSpectralFeatures samples sampleRate).ZeroCrossing =
        (zcRefCount samples : Rat) / (samples.length : Rat) ∧
      (calculateSpectralFeatures samples sampleRate).Energy = energyRef samples ∧
      (calculateSpectralFeatures samples sampleRate).LowEnergy = bandRef samples 100 ∧
      (calculateSpectralFeatures samples sampleRate).MidEnergy = bandRef samples 20 ∧
      (calculateSpectralFeatures samples sampleRate).HighEnergy = bandRef samples 5) ∧
    (∀ (n : Nat) (sampleRate : Int), 1 ≤ n →
      (calculateSpectralFeatures (List.replicate n 0) sampleRate).Energy = 0 ∧
      (calculateSpectralFeatures (List.replicate n 0) sampleRate).ZeroCrossing = 0 ∧
      (calculateSpectralFeatures (List.replicate n 0) sampleRate).LowEnergy = 0 ∧
      (calculateSpectralFeatures (List.replicate n 0) sampleRate).MidEnergy = 0 ∧
      (calculateSpectralFeatures (List.replicate n 0) sampleRate).HighEnergy = 0) := by
  constructor
  · intro samples sampleRate _
    refine ⟨?_, ?_, ?_, ?_, ?_⟩
    · rw [csf_zc, zcLoop_eq]
    · rw [csf_energy, energy_foldl_eq, energyRef]
    · rw [csf_low, band_eq_ref samples 100]
    · rw [csf_mid, band_eq_ref samples 20]
    · rw [csf_high, band_eq_ref samples 5]
  · intro n sampleRate _
    have hzero : ∀ i : Nat, (List.replicate n (0 : Rat)).getD i 0 = 0 := getD_replicate_zero n
    refine ⟨?_, ?_, ?_, ?_, ?_⟩
    · rw [csf_energy, energy_foldl_eq, Finset.sum_eq_zero, zero_div]
      intro i _
      rw [hzero i]
      ring
    · rw [csf_zc]
      have hz : zcLoop (List.replicate n 0) = 0 := by
        rw [zcLoop_eq, zcRefCount, Finset.sum_eq_zero]
        intro i _
        rw [hzero (i - 1), hzero i]
        simp [signChange]
      rw [hz]
      simp
    · rw [csf_low]
      by_cases h : (List.replicate n (0 : Rat)).length > 100
      · rw [if_pos h, bandLoop_eq_sum _ _ (le_of_lt h), Finset.sum_eq_zero, zero_div]
        intro i _
        rw [hzero i, hzero (i - 100)]
        ring
      · rw [if_neg h]
    · rw [csf_mid]
      by_cases h : (List.replicate n (0 : Rat)).length > 20
      · rw [if_pos h, bandLoop_eq_sum _ _ (le_of_lt h), Finset.sum_eq_zero, zero_div]
        intro i _
        rw [hzero i, hzero (i - 20)]
        ring
      · rw [if_neg h]
    · rw [csf_high]
      by_cases h : (List.replicate n (0 : Rat)).length > 5
      · rw [if_pos h, bandLoop_eq_sum _ _ (le_of_lt h), Finset.sum_eq_zero, zero_div]
        intro i _
        rw [hzero i, hzero (i - 5)]
        ring
      · rw [if_neg h]

/-- C7, witness: the reference-equality theorem applied at the concrete
one-sample sequences `[1]` and `[0]`. -/
theorem C7_spectral_witness :
    (calculateSpectralFeatures [(1 : Rat)] 48000).Energy = energyRef [(1 : Rat)] ∧
    (calculateSpectralFeatures (List.replicate 1 (0 : Rat)) 48000).Energy = 0 ∧
    (calculateSpectralFeatures (List.replicate 1 (0 : Rat)) 48000).ZeroCrossing = 0 :=
  ⟨(C7_spectral_features_reference.1 [(1 : Rat)] 48000 (by decide)).2.1,
   (C7_spectral_features_reference.2 1 48000 (by decide)).1,
   (C7_spectral_features_reference.2 1 48000 (by decide)).2.1⟩

/-! ## Claim C5 -/

/-- C5, counterexample.  The claim's "only if" direction fails: the
delimiter `|` can occur inside `format` or `title`, so two metadata
values with different tuples can produce the same delimited string and
hence the same fingerprint.  Here `format="x|y", title="z"` and
`format="x", title="y|z"` both hash `"1|1|1|0|x|y|z"`. -/
theorem C5_counterexample :
    generateFingerprint metaPipeInFormat = generateFingerprint metaPipeInTitle ∧
    fpTuple metaPipeInFormat ≠ fpTuple metaPipeInTitle := by
  constructor
  · have h : fpData metaPipeInFormat = fpData metaPipeInTitle := by decide
    unfold generateFingerprint
    rw [h]
  · decide

/-- C5, amended.  `generateFingerprint(m1)` equals
`generateFingerprint(m2)` if the tuples `(sampleRate, channels,
bitDepth, trunc(durationSeconds), format, title)` are equal (but not
only if: fields containing the delimiter `|` can make distinct tuples
collide); the output is always the first 16 bytes (32 hex characters)
of the SHA-256 digest of the delimited string
`sampleRate|channels|bitDepth|trunc(durationSeconds)|format|title`, and
identical inputs always yield identical output. -/
theorem C5_fingerprint_of_tuple :
    (∀ m1 m2 : AudioMetadata, fpTuple m1 = fpTuple m2 →
      generateFingerprint m1 = generateFingerprint m2) ∧
    (∀ m : AudioMetadata,
      generateFingerprint m = hexEncode ((sha256Bytes (utf8Bytes (fpData m))).take 16)) := by
  constructor
  · intro m1 m2 h
    rw [fpTuple, fpTuple, Prod.mk.injEq, Prod.mk.injEq, Prod.mk.injEq, Prod.mk.injEq,
      Prod.mk.injEq] at h
    obtain ⟨h1, h2, h3, h4, h5, h6⟩ := h
    have hdata : fpData m1 = fpData m2 := by
      rw [fpData, fpData, h1, h2, h3, h4, h5, h6]
    unfold generateFingerprint
    rw [hdata]
  · intro m
    rfl

/-- C5, witness: the amended theorem applied to two concrete metadata
values whose fingerprint-relevant tuples agree (they differ only in the
`Genre` field, which the fingerprint ignores). -/
theorem C5_fingerprint_witness :
    generateFingerprint metaGenreRock = generateFingerprint metaGenreAmbient :=
  C5_fingerprint_of_tuple.1 _ _ (by decide)

/-! ## Claim C8 -/

theorem readSamples_length_le (ch : Nat) : ∀ (max : Nat) (pcm : List Int),
    (readSamples ch max pcm).length ≤ max := by
  intro max
  induction max with
  | zero => intro pcm; cases pcm <;> simp [readSamples]
  | succ m ih =>
    intro pcm
    cases pcm with
    | nil => simp [readSamples]
    | cons d0 rest =>
      simp only [readSamples]
      by_cases h : (ch == 1) = true
      · rw [if_pos h, List.length_cons]
        exact Nat.succ_le_succ (ih rest)
      · rw [if_neg h]
        show (_ :: readSamples ch m ((d0 :: rest).drop ch)).length ≤ m + 1
        rw [List.length_cons]
        exact Nat.succ_le_succ (ih _)

/-- C8, confirmed.  The spectral pass extracts at most
`min(2·sampleRate, 8192)` mono-reduced samples; when fewer than 100
samples are obtained the pass fails (`none`), and on the WAV path of
`AnalyzeFile` a failed spectral pass leaves `SpectralFeatures` absent
while the overall analysis still succeeds. -/
theorem C8_spectral_bounded_and_nonfatal :
    (∀ (sr ch : Int) (pcm : List Int), 0 < sr →
      (analyzeSpectralSamples sr ch pcm).length ≤ min (2 * sr).toNat 8192) ∧
    (∀ (wavValid : Bool) (sr ch : Int) (pcm : List Int),
      (analyzeSpectralSamples sr ch pcm).length < 100 →
      analyzeSpectral wavValid sr ch pcm = none) ∧
    (∀ fd : FileData, (analyzeWAV fd (readEmbeddedTags fd emptyMeta)).isSome = true →
      ∃ m : AudioMetadata, AnalyzeFile ".wav" fd = some m ∧
        (analyzeSpectral fd.wavValid m.SampleRate m.Channels fd.pcm = none →
          m.SpectralFeatures = none)) := by
  refine ⟨?_, ?_, ?_⟩
  · intro sr ch pcm h
    have hsr : sr > 0 := h
    show (readSamples ch.toNat
        (if (if sr > 0 then sr * 2 else 8192) > 8192 then (8192 : Int)
         else if sr > 0 then sr * 2 else 8192).toNat pcm).length ≤ min (2 * sr).toNat 8192
    rw [if_pos hsr]
    by_cases h2 : sr * 2 > 8192
    · rw [if_pos h2]
      have hlen := readSamples_length_le ch.toNat (8192 : Int).toNat pcm
      omega
    · rw [if_neg h2]
      have hlen := readSamples_length_le ch.toNat (sr * 2).toNat pcm
      omega
  · intro wavValid sr ch pcm h
    show (if (sr == 0 || ch == 0) = true then none
      else if (!wavValid) = true then none
      else if (analyzeSpectralSamples sr ch pcm).length < 100 then none
      else some (calculateSpectralFeatures (analyzeSpectralSamples sr ch pcm) sr)) = none
    by_cases h1 : (sr == 0 || ch == 0) = true
    · rw [if_pos h1]
    · rw [if_neg h1]
      by_cases h2 : (!wavValid) = true
      · rw [if_pos h2]
      · rw [if_neg h2, if_pos h]
  · intro fd hsome
    cases hw : analyzeWAV fd (readEmbeddedTags fd emptyMeta) with
    | none => rw [hw] at hsome; simp at hsome
    | some m0 =>
      refine ⟨{ m0 with
        SpectralFeatures := analyzeSpectral fd.wavValid m0.SampleRate m0.Channels fd.pcm },
        ?_, ?_⟩
      · simp only [AnalyzeFile]
        rw [if_pos (show (".wav" == ".wav") = true from rfl), hw]
      · intro hnone
        show analyzeSpectral fd.wavValid m0.SampleRate m0.Channels fd.pcm = none
        exact hnone

/-- C8, witness: the theorem applied at a valid mono 100 Hz WAV file
with an empty PCM stream — zero samples are read, the spectral pass is
skipped, and the analysis still succeeds with absent features. -/
theorem C8_spectral_witness :
    (analyzeSpectralSamples 100 1 []).length ≤ min ((2 * 100 : Int)).toNat 8192 ∧
    analyzeSpectral true 100 1 [] = none ∧
    ∃ m : AudioMetadata, AnalyzeFile ".wav" fdSmallWav = some m ∧
      (analyzeSpectral fdSmallWav.wavValid m.SampleRate m.Channels fdSmallWav.pcm = none →
        m.SpectralFeatures = none) :=
  ⟨C8_spectral_bounded_and_nonfatal.1 100 1 [] (by norm_num),
   C8_spectral_bounded_and_nonfatal.2.1 true 100 1 [] (by decide),
   C8_spectral_bounded_and_nonfatal.2.2 fdSmallWav rfl⟩

/-! ## Claim C3 -/

/-- C3, code bug.  The spec's invariant says tags are only ever
appended, but `parseFiles` runs after duplicate detection and
`parseFile` rebuilds `Tags` from scratch (`af.Tags =
ap.generateTags(af)`), discarding the audio-derived tags and the
`duplicate`/`duplicate-group-N` tags before the records reach the
renaming and manifest consumers.  Evaluated here on a record that
carries both kinds of tag when it enters the parse stage. -/
theorem C3_duplicate_tags_dropped :
    "duplicate" ∈ dupTaggedRecord.Tags ∧
    "duplicate-group-1" ∈ dupTaggedRecord.Tags ∧
    "duplicate" ∉ (parseFile dupTaggedRecord).Tags ∧
    "duplicate-group-1" ∉ (parseFile dupTaggedRecord).Tags ∧
    (parseFile dupTaggedRecord).Tags = ["SFX_IMPACT", "boom", "src:BW"] := by
  refine ⟨by decide, by decide, by decide, by decide, by decide⟩

/-! ## Claim C6 -/

theorem applyAnalysis_OriginalName (af : AudioFile)
    (r : Option (Option AudioMetadata × List String × String)) :
    (applyAnalysis af r).OriginalName = af.OriginalName := by
  cases r with
  | none => rfl
  | some x =>
    obtain ⟨m, t, c⟩ := x
    simp only [applyAnalysis]
    split
    · split <;> rfl
    · rfl

theorem applyAnalysis_ID (af : AudioFile)
    (r : Option (Option AudioMetadata × List String × String)) :
    (applyAnalysis af r).ID = af.ID := by
  cases r with
  | none => rfl
  | some x =>
    obtain ⟨m, t, c⟩ := x
    simp only [applyAnalysis]
    split
    · split <;> rfl
    · rfl

theorem applyAnalysis_Source (af : AudioFile)
    (r : Option (Option AudioMetadata × List String × String)) :
    (applyAnalysis af r).Source = af.Source := by
  cases r with
  | none => rfl
  | some x =>
    obtain ⟨m, t, c⟩ := x
    simp only [applyAnalysis]
    split
    · split <;> rfl
    · rfl

theorem parseFile_key_fields (af af' : AudioFile)
    (hn : af.OriginalName = af'.OriginalName) (hi : af.ID = af'.ID)
    (hs : af.Source = af'.Source) :
    (parseFile af).Category = (parseFile af').Category ∧
    (parseFile af).SubCategory = (parseFile af').SubCategory ∧
    (parseFile af).Source = (parseFile af').Source ∧
    (parseFile af).ID = (parseFile af').ID ∧
    (parseFile af).Tags = (parseFile af').Tags := by
  unfold parseFile generateTags
  rw [hn, hi, hs]
  exact ⟨rfl, rfl, rfl, rfl, rfl⟩

/-- C6, confirmed.  Two-run noninterference at the parse stage: two
records created from the same original name, analyzed with arbitrary
(possibly failing, possibly different) audio results and with arbitrary
tag lists appended afterwards (the duplicate-detection stage), have
identical `Category`, `SubCategory`, `Source`, `ID` and `Tags` after
`parseFile` — the parse stage recomputes all of these from the
original name alone. -/
theorem C6_parse_noninterference
    (p1 p2 name : String) (r1 r2 : Option (Option AudioMetadata × List String × String))
    (extra1 extra2 : List String) :
    (parseFile { applyAnalysis (initRecord p1 name) r1 with
        Tags := (applyAnalysis (initRecord p1 name) r1).Tags ++ extra1 }).Category =
      (parseFile { applyAnalysis (initRecord p2 name) r2 with
        Tags := (applyAnalysis (initRecord p2 name) r2).Tags ++ extra2 }).Category ∧
    (parseFile { applyAnalysis (initRecord p1 name) r1 with
        Tags := (applyAnalysis (initRecord p1 name) r1).Tags ++ extra1 }).SubCategory =
      (parseFile { applyAnalysis (initRecord p2 name) r2 with
        Tags := (applyAnalysis (initRecord p2 name) r2).Tags ++ extra2 }).SubCategory ∧
    (parseFile { applyAnalysis (initRecord p1 name) r1 with
        Tags := (applyAnalysis (initRecord p1 name) r1).Tags ++ extra1 }).Source =
      (parseFile { applyAnalysis (initRecord p2 name) r2 with
        Tags := (applyAnalysis (initRecord p2 name) r2).Tags ++ extra2 }).Source ∧
    (parseFile { applyAnalysis (initRecord p1 name) r1 with
        Tags := (applyAnalysis (initRecord p1 name) r1).Tags ++ extra1 }).ID =
      (parseFile { applyAnalysis (initRecord p2 name) r2 with
        Tags := (applyAnalysis (initRecord p2 name) r2).Tags ++ extra2 }).ID ∧
    (parseFile { applyAnalysis (initRecord p1 name) r1 with
        Tags := (applyAnalysis (initRecord p1 name) r1).Tags ++ extra1 }).Tags =
      (parseFile { applyAnalysis (initRecord p2 name) r2 with
        Tags := (applyAnalysis (initRecord p2 name) r2).Tags ++ extra2 }).Tags := by
  apply parseFile_key_fields
  · show (applyAnalysis (initRecord p1 name) r1).OriginalName =
      (applyAnalysis (initRecord p2 name) r2).OriginalName
    rw [applyAnalysis_OriginalName, applyAnalysis_OriginalName]
    rfl
  · show (applyAnalysis (initRecord p1 name) r1).ID =
      (applyAnalysis (initRecord p2 name) r2).ID
    rw [applyAnalysis_ID, applyAnalysis_ID]
    rfl
  · show (applyAnalysis (initRecord p1 name) r1).Source =
      (applyAnalysis (initRecord p2 name) r2).Source
    rw [applyAnalysis_Source, applyAnalysis_Source]
    rfl

/-! ## Claims C4 and C10: grouping machinery -/

theorem lookupG_addFp (fp key : String) (i : Nat) : ∀ acc : List (String × List Nat),
    lookupG (addFp acc fp i) key =
      if key = fp then some ((lookupG acc fp).getD [] ++ [i]) else lookupG acc key := by
  intro acc
  induction acc with
  | nil =>
    by_cases h : key = fp
    · subst h
      simp [addFp, lookupG]
    · have h1 : (fp == key) = false := by simp [Ne.symm h]
      simp [addFp, lookupG, h1, h]
  | cons p rest ih =>
    obtain ⟨k, is⟩ := p
    by_cases hkf : k = fp
    · subst hkf
      by_cases hkey : key = k
      · subst hkey
        simp [addFp, lookupG]
      · have h1 : (k == key) = false := by simp [Ne.symm hkey]
        have h2 : key ≠ k := hkey
        simp [addFp, lookupG, h1, h2]
    · have h2 : (k == fp) = false := by simp [hkf]
      by_cases hkey : key = k
      · subst hkey
        have h3 : key ≠ fp := hkf
        simp [addFp, lookupG, h2, h3]
      · have h4 : (k == key) = false := by simp [Ne.symm hkey]
        simp [addFp, lookupG, h2, h4, ih]

theorem addFp_keys_sub (fp key : String) (i : Nat) : ∀ acc : List (String × List Nat),
    key ∈ (addFp acc fp i).map Prod.fst → key ∈ acc.map Prod.fst ∨ key = fp := by
  intro acc
  induction acc with
  | nil =>
    intro h
    simp [addFp] at h
    exact Or.inr h
  | cons p rest ih =>
    obtain ⟨k, is⟩ := p
    intro h
    by_cases hkf : k = fp
    · subst hkf
      simp only [addFp, beq_self_eq_true, if_true, List.map_cons, List.mem_cons] at h
      rcases h with h | h
      · exact Or.inl (by simp [h])
      · exact Or.inl (by simp [h])
    · have h2 : (k == fp) = false := by simp [hkf]
      simp only [addFp, h2, Bool.false_eq_true, if_false, List.map_cons, List.mem_cons] at h
      rcases h with h | h
      · exact Or.inl (by simp [h])
      · rcases ih h with h3 | h3
        · exact Or.inl (by simp [h3])
        · exact Or.inr h3

theorem addFp_keys_nodup (fp : String) (i : Nat) : ∀ acc : List (String × List Nat),
    (acc.map Prod.fst).Nodup → ((addFp acc fp i).map Prod.fst).Nodup := by
  intro acc
  induction acc with
  | nil =>
    intro _
    simp [addFp]
  | cons p rest ih =>
    obtain ⟨k, is⟩ := p
    intro h
    simp only [List.map_cons, List.nodup_cons] at h
    by_cases hkf : k = fp
    · subst hkf
      simp only [addFp, beq_self_eq_true, if_true, List.map_cons, List.nodup_cons]
      exact h
    · have h2 : (k == fp) = false := by simp [hkf]
      simp only [addFp, h2, Bool.false_eq_true, if_false, List.map_cons, List.nodup_cons]
      refine ⟨?_, ih h.2⟩
      intro hmem
      rcases addFp_keys_sub fp k i rest hmem with h3 | h3
      · exact h.1 h3
      · exact hkf h3

theorem lookupG_mem {acc : List (String × List Nat)} {key : String} {is : List Nat}
    (h : lookupG acc key = some is) : (key, is) ∈ acc := by
  induction acc with
  | nil => simp [lookupG] at h
  | cons p rest ih =>
    obtain ⟨k, is'⟩ := p
    by_cases hk : (k == key) = true
    · rw [lookupG, if_pos hk] at h
      obtain rfl := Option.some.inj h
      have : k = key := by simpa using hk
      subst this
      simp
    · rw [lookupG, if_neg hk] at h
      exact List.mem_cons_of_mem _ (ih h)

theorem mem_lookupG {acc : List (String × List Nat)} {key : String} {is : List Nat}
    (hnd : (acc.map Prod.fst).Nodup) (h : (key, is) ∈ acc) : lookupG acc key = some is := by
  induction acc with
  | nil => simp at h
  | cons p rest ih =>
    obtain ⟨k, is'⟩ := p
    simp only [List.map_cons, List.nodup_cons] at hnd
    rcases List.mem_cons.mp h with h1 | h1
    · have h2 : key = k ∧ is = is' := by simpa using h1
      obtain ⟨rfl, rfl⟩ := h2
      simp [lookupG]
    · have hne : k ≠ key := by
        intro hcontra
        subst hcontra
        exact hnd.1 (by simpa using List.mem_map_of_mem Prod.fst h1)
      have hb : (k == key) = false := by simp [hne]
      rw [lookupG, if_neg (by simp [hb])]
      exact ih hnd.2 h1

theorem collectGo_keys_nodup : ∀ (rest : List String) (i : Nat) (acc : List (String × List Nat)),
    (acc.map Prod.fst).Nodup → ((collectGo i rest acc).map Prod.fst).Nodup := by
  intro rest
  induction rest with
  | nil => intro i acc h; exact h
  | cons fp rest' ih =>
    intro i acc h
    simp only [collectGo]
    by_cases hfp : (fp == "") = true
    · rw [if_pos hfp]
      exact ih _ _ h
    · rw [if_neg hfp]
      exact ih _ _ (addFp_keys_nodup _ _ _ h)

theorem collectGo_keys_ne : ∀ (rest : List String) (i : Nat) (acc : List (String × List Nat)),
    (∀ k ∈ acc.map Prod.fst, k ≠ "") →
    ∀ k ∈ (collectGo i rest acc).map Prod.fst, k ≠ "" := by
  intro rest
  induction rest with
  | nil => intro i acc h; exact h
  | cons fp rest' ih =>
    intro i acc h
    simp only [collectGo]
    by_cases hfp : (fp == "") = true
    · rw [if_pos hfp]
      exact ih _ _ h
    · rw [if_neg hfp]
      refine ih _ _ ?_
      intro k hk
      rcases addFp_keys_sub fp k i acc hk with h1 | h1
      · exact h k h1
      · subst h1
        simpa using hfp

theorem collectGo_lookup (key : String) (hkey : key ≠ "") :
    ∀ (rest : List String) (i : Nat) (acc : List (String × List Nat)),
    lookupG (collectGo i rest acc) key =
      if occ key i rest = [] then lookupG acc key
      else some ((lookupG acc key).getD [] ++ occ key i rest) := by
  intro rest
  induction rest with
  | nil => intro i acc; simp [collectGo, occ]
  | cons fp rest' ih =>
    intro i acc
    simp only [collectGo]
    by_cases hfp : fp = ""
    · subst hfp
      have hne : ("" == key) = false := by simp [Ne.symm hkey]
      rw [if_pos (by simp), ih]
      simp only [occ, hne, Bool.false_eq_true, if_false]
    · have hb : (fp == "") = false := by simp [hfp]
      rw [if_neg (by simp [hb]), ih]
      by_cases hfk : fp = key
      · subst hfk
        simp only [occ, beq_self_eq_true, if_true]
        rw [lookupG_addFp]
        rw [if_pos rfl]
        cases hocc : occ fp (i + 1) rest' with
        | nil => simp [hocc]
        | cons a t => simp [hocc, List.append_assoc]
      · have hb2 : (fp == key) = false := by simp [hfk]
        simp only [occ, hb2, Bool.false_eq_true, if_false]
        rw [lookupG_addFp, if_neg (show ¬key = fp from fun hc => hfk hc.symm)]

theorem occ_mem_ge (key : String) : ∀ (rest : List String) (i j : Nat),
    j ∈ occ key i rest → i ≤ j := by
  intro rest
  induction rest with
  | nil => intro i j h; simp [occ] at h
  | cons fp rest' ih =>
    intro i j h
    by_cases hfk : (fp == key) = true
    · rw [occ, if_pos hfk] at h
      rcases List.mem_cons.mp h with rfl | h1
      · exact le_refl j
      · exact le_of_lt (lt_of_lt_of_le (Nat.lt_succ_self i) (ih (i + 1) j h1))
    · rw [occ, if_neg hfk] at h
      exact le_of_lt (lt_of_lt_of_le (Nat.lt_succ_self i) (ih (i + 1) j h))

theorem occ_mem_getD (key : String) : ∀ (rest : List String) (i j : Nat),
    j ∈ occ key i rest → rest.getD (j - i) "" = key := by
  intro rest
  induction rest with
  | nil => intro i j h; simp [occ] at h
  | cons fp rest' ih =>
    intro i j h
    by_cases hfk : (fp == key) = true
    · rw [occ, if_pos hfk] at h
      rcases List.mem_cons.mp h with rfl | h1
      · simp only [Nat.sub_self]
        simpa using hfk
      · have hge := occ_mem_ge key rest' (i + 1) j h1
        have := ih (i + 1) j h1
        rw [show j - i = (j - (i + 1)) + 1 from by omega]
        simpa using this
    · rw [occ, if_neg hfk] at h
      have hge := occ_mem_ge key rest' (i + 1) j h
      have := ih (i + 1) j h
      rw [show j - i = (j - (i + 1)) + 1 from by omega]
      simpa using this

theorem occ_complete (key : String) : ∀ (rest : List String) (i j : Nat),
    j < rest.length → rest.getD j "" = key → (i + j) ∈ occ key i rest := by
  intro rest
  induction rest with
  | nil => intro i j h; simp at h
  | cons fp rest' ih =>
    intro i j hlt hget
    cases j with
    | zero =>
      simp only [List.getD_cons_zero] at hget
      subst hget
      rw [occ, if_pos (by simp)]
      simp
    | succ j' =>
      simp only [List.getD_cons_succ] at hget
      have hlt' : j' < rest'.length := by simpa using hlt
      have hmem := ih (i + 1) j' hlt' hget
      have : i + (j' + 1) = (i + 1) + j' := by omega
      rw [this, occ]
      by_cases hfk : (fp == key) = true
      · rw [if_pos hfk]
        exact List.mem_cons_of_mem _ hmem
      · rw [if_neg hfk]
        exact hmem

theorem occ_nodup (key : String) : ∀ (rest : List String) (i : Nat), (occ key i rest).Nodup := by
  intro rest
  induction rest with
  | nil => intro i; simp [occ]
  | cons fp rest' ih =>
    intro i
    by_cases hfk : (fp == key) = true
    · rw [occ, if_pos hfk]
      refine List.nodup_cons.mpr ⟨?_, ih (i + 1)⟩
      intro hmem
      have := occ_mem_ge key rest' (i + 1) i hmem
      omega
    · rw [occ, if_neg hfk]
      exact ih (i + 1)

theorem appendTagAt_length : ∀ (files : List AudioFile) (idx : Nat) (t : String),
    (appendTagAt files idx t).length = files.length := by
  intro files
  induction files with
  | nil => intro idx t; rfl
  | cons f rest ih =>
    intro idx t
    cases idx with
    | zero => rfl
    | succ n => simp [appendTagAt, ih n t]

theorem appendTagAt_getD_ne : ∀ (files : List AudioFile) (idx : Nat) (t : String) (j : Nat),
    j ≠ idx → (appendTagAt files idx t).getD j default = files.getD j default := by
  intro files
  induction files with
  | nil => intro idx t j _; rfl
  | cons f rest ih =>
    intro idx t j hne
    cases idx with
    | zero =>
      cases j with
      | zero => exact absurd rfl hne
      | succ j' => rfl
    | succ n =>
      cases j with
      | zero => rfl
      | succ j' => simpa [appendTagAt] using ih n t j' (fun hc => hne (by omega))

theorem appendTagAt_getD_eq : ∀ (files : List AudioFile) (idx : Nat) (t : String),
    idx < files.length →
    (appendTagAt files idx t).getD idx default =
      { files.getD idx default with Tags := (files.getD idx default).Tags ++ [t] } := by
  intro files
  induction files with
  | nil => intro idx t h; simp at h
  | cons f rest ih =>
    intro idx t h
    cases idx with
    | zero => rfl
    | succ n =>
      have hn : n < rest.length := by simpa using h
      simpa [appendTagAt] using ih n t hn

theorem foldl_tags_untouched (t1 t2 : String) (cond : Prop) [Decidable cond] :
    ∀ (idxs : List Nat) (files : List AudioFile) (j : Nat), j ∉ idxs →
    ((idxs.foldl (fun fs idx =>
        let fs1 := appendTagAt fs idx t1
        if cond then appendTagAt fs1 idx t2 else fs1) files).getD j default)
      = files.getD j default := by
  intro idxs
  induction idxs with
  | nil => intro files j _; rfl
  | cons a rest ih =>
    intro files j hmem
    have hja : j ≠ a := fun hc => hmem (by simp [hc])
    have hjr : j ∉ rest := fun hc => hmem (by simp [hc])
    rw [List.foldl_cons]
    rw [ih _ j hjr]
    by_cases hc : cond
    · simp only [if_pos hc]
      rw [appendTagAt_getD_ne _ _ _ _ hja, appendTagAt_getD_ne _ _ _ _ hja]
    · simp only [if_neg hc]
      rw [appendTagAt_getD_ne _ _ _ _ hja]

theorem foldl_tags_length (t1 t2 : String) (cond : Prop) [Decidable cond] :
    ∀ (idxs : List Nat) (files : List AudioFile),
    ((idxs.foldl (fun fs idx =>
        let fs1 := appendTagAt fs idx t1
        if cond then appendTagAt fs1 idx t2 else fs1) files).length) = files.length := by
  intro idxs
  induction idxs with
  | nil => intro files; rfl
  | cons a rest ih =>
    intro files
    rw [List.foldl_cons, ih]
    by_cases hc : cond
    · simp only [if_pos hc]
      rw [appendTagAt_length, appendTagAt_length]
    · simp only [if_neg hc]
      rw [appendTagAt_length]

theorem foldl_tags_mem (t1 t2 : String) (cond : Prop) [Decidable cond] (hcond : cond) :
    ∀ (idxs : List Nat) (files : List AudioFile) (j : Nat), idxs.Nodup → j ∈ idxs →
    j < files.length →
    ((idxs.foldl (fun fs idx =>
        let fs1 := appendTagAt fs idx t1
        if cond then appendTagAt fs1 idx t2 else fs1) files).getD j default)
      = { files.getD j default with Tags := (files.getD j default).Tags ++ [t1, t2] } := by
  intro idxs
  induction idxs with
  | nil => intro files j _ hmem; simp at hmem
  | cons a rest ih =>
    intro files j hnd hmem hlt
    have hnd' := List.nodup_cons.mp hnd
    rw [List.foldl_cons]
    rcases List.mem_cons.mp hmem with rfl | hmr
    · rw [foldl_tags_untouched t1 t2 cond rest _ j hnd'.1]
      simp only [if_pos hcond]
      rw [appendTagAt_getD_eq _ _ _ (by rw [appendTagAt_length]; exact hlt),
        appendTagAt_getD_eq _ _ _ hlt]
      simp [List.append_assoc]
    · have hja : j ≠ a := fun hc => hnd'.1 (hc ▸ hmr)
      have hlt' : j < (if cond then appendTagAt (appendTagAt files a t1) a t2
          else appendTagAt files a t1).length := by
        by_cases hc : cond
        · simpa [if_pos hc, appendTagAt_length] using hlt
        · simpa [if_neg hc, appendTagAt_length] using hlt
      rw [ih _ j hnd'.2 hmr (by simpa using hlt')]
      by_cases hc : cond
      · simp only [if_pos hc]
        rw [appendTagAt_getD_ne _ _ _ _ hja, appendTagAt_getD_ne _ _ _ _ hja]
      · simp only [if_neg hc]
        rw [appendTagAt_getD_ne _ _ _ _ hja]

theorem occ_mem_lt (key : String) : ∀ (rest : List String) (i j : Nat),
    j ∈ occ key i rest → j < i + rest.length := by
  intro rest
  induction rest with
  | nil => intro i j h; simp [occ] at h
  | cons fp rest' ih =>
    intro i j h
    by_cases hfk : (fp == key) = true
    · rw [occ, if_pos hfk] at h
      rcases List.mem_cons.mp h with rfl | h1
      · simp
      · have := ih (i + 1) j h1
        simp only [List.length_cons]
        omega
    · rw [occ, if_neg hfk] at h
      have := ih (i + 1) j h
      simp only [List.length_cons]
      omega

theorem one_lt_length_of_two_mem {α : Type} {l : List α} {a b : α}
    (hab : a ≠ b) (ha : a ∈ l) (hb : b ∈ l) : 1 < l.length := by
  cases l with
  | nil => simp at ha
  | cons x t =>
    cases t with
    | nil =>
      simp only [List.mem_singleton] at ha hb
      exact absurd (ha.trans hb.symm) hab
    | cons y u => simp only [List.length_cons]; omega

theorem dupTagIndices_untouched (files : List AudioFile) (indices : List Nat) (cnt j : Nat)
    (h : j ∉ indices) :
    (dupTagIndices files indices cnt).getD j default = files.getD j default :=
  foldl_tags_untouched "duplicate" ("duplicate-group-" ++ toString cnt)
    (indices.length > 1) indices files j h

theorem dupTagIndices_mem (files : List AudioFile) (indices : List Nat) (cnt j : Nat)
    (hgt : indices.length > 1) (hnd : indices.Nodup) (hj : j ∈ indices)
    (hlt : j < files.length) :
    (dupTagIndices files indices cnt).getD j default =
      { files.getD j default with
        Tags := (files.getD j default).Tags ++
          ["duplicate", "duplicate-group-" ++ toString cnt] } :=
  foldl_tags_mem "duplicate" ("duplicate-group-" ++ toString cnt)
    (indices.length > 1) hgt indices files j hnd hj hlt

theorem dupTagIndices_length (files : List AudioFile) (indices : List Nat) (cnt : Nat) :
    (dupTagIndices files indices cnt).length = files.length :=
  foldl_tags_length "duplicate" ("duplicate-group-" ++ toString cnt)
    (indices.length > 1) indices files

theorem dupPass_smalls : ∀ (groups : List (String × List Nat)) (cnt : Nat)
    (files : List AudioFile),
    (∀ g ∈ groups, g.2.length ≤ 1) → dupPass cnt groups files = (cnt, files) := by
  intro groups
  induction groups with
  | nil => intro cnt files _; rfl
  | cons g rest ih =>
    intro cnt files h
    obtain ⟨k, is⟩ := g
    have hle : ¬(is.length > 1) := by
      have := h (k, is) (by simp)
      simp only at this
      omega
    rw [dupPass, if_neg hle]
    exact ih cnt files (fun g hg => h g (by simp [hg]))

theorem dupPass_skip : ∀ (pre : List (String × List Nat)),
    (∀ g ∈ pre, g.2.length ≤ 1) →
    ∀ (cnt : Nat) (rest : List (String × List Nat)) (files : List AudioFile),
    dupPass cnt (pre ++ rest) files = dupPass cnt rest files := by
  intro pre
  induction pre with
  | nil => intro _ cnt rest files; rfl
  | cons g pre' ih =>
    intro h cnt rest files
    obtain ⟨k, is⟩ := g
    have hle : ¬(is.length > 1) := by
      have := h (k, is) (by simp)
      simp only at this
      omega
    rw [List.cons_append, dupPass, if_neg hle]
    exact ih (fun g hg => h g (by simp [hg])) cnt rest files

theorem dupPass_untouched : ∀ (groups : List (String × List Nat)) (cnt : Nat)
    (files : List AudioFile) (j : Nat),
    (∀ g ∈ groups, j ∉ g.2) →
    (dupPass cnt groups files).2.getD j default = files.getD j default := by
  intro groups
  induction groups with
  | nil => intro cnt files j _; rfl
  | cons g rest ih =>
    intro cnt files j h
    obtain ⟨k, is⟩ := g
    have hj : j ∉ is := h (k, is) (by simp)
    by_cases hgt : is.length > 1
    · rw [dupPass, if_pos hgt, ih _ _ j (fun g hg => h g (by simp [hg]))]
      exact dupTagIndices_untouched files is (cnt + 1) j hj
    · rw [dupPass, if_neg hgt]
      exact ih _ _ j (fun g hg => h g (by simp [hg]))

theorem exists_two_distinct {α : Type} {l : List α} (h : 1 < l.length) (hnd : l.Nodup) :
    ∃ a b, a ≠ b ∧ a ∈ l ∧ b ∈ l := by
  cases l with
  | nil => simp at h
  | cons a t =>
    cases t with
    | nil => simp at h
    | cons b u =>
      have hab : a ≠ b := by
        have hc := List.nodup_cons.mp hnd
        intro hcontra
        exact hc.1 (by simp [hcontra])
      exact ⟨a, b, hab, by simp, by simp⟩

theorem getD_mem_of_lt {α : Type} [Inhabited α] : ∀ (l : List α) (i : Nat),
    i < l.length → l.getD i default ∈ l := by
  intro l
  induction l with
  | nil => intro i h; simp at h
  | cons x t ih =>
    intro i h
    cases i with
    | zero => simp
    | succ n =>
      have := ih n (by simpa using h)
      simp only [List.getD_cons_succ]
      exact List.mem_cons_of_mem _ this

theorem collectFps_group_char (fps : List String) :
    ∀ g ∈ collectFps fps, g.1 ≠ "" ∧ g.2 = occ g.1 0 fps := by
  intro g hg
  obtain ⟨k, is⟩ := g
  have hnd : ((collectFps fps).map Prod.fst).Nodup := collectGo_keys_nodup fps 0 [] (by simp)
  have hk : k ≠ "" :=
    collectGo_keys_ne fps 0 [] (by simp) k (List.mem_map_of_mem Prod.fst hg)
  have hlook : lookupG (collectFps fps) k = some is := mem_lookupG hnd hg
  unfold collectFps at hlook
  rw [collectGo_lookup k hk fps 0 []] at hlook
  by_cases hocc : occ k 0 fps = []
  · rw [if_pos hocc] at hlook
    exact absurd hlook (by simp [lookupG])
  · rw [if_neg hocc] at hlook
    simp only [lookupG, Option.getD_none, List.nil_append, Option.some.injEq] at hlook
    exact ⟨hk, hlook.symm⟩

/-- C4, confirmed.  In a batch where exactly one non-empty fingerprint
is shared (by two or more records) and every other fingerprint is
pairwise distinct or empty, the duplicate-detection pass tags exactly
the sharing records with `"duplicate"`, tags none of the others, and
gives all sharing records the same group suffix
`"duplicate-group-1"`. -/
theorem C4_duplicate_grouping (fps : List String) (files : List AudioFile) (f0 : String)
    (hf0 : f0 ≠ "")
    (hlen : files.length = fps.length)
    (hex : ∃ i ∈ List.range fps.length, ∃ j ∈ List.range fps.length,
      i ≠ j ∧ fps.getD i "" = f0 ∧ fps.getD j "" = f0)
    (hdistinct : ∀ i ∈ List.range fps.length, ∀ j ∈ List.range fps.length,
      i ≠ j → fps.getD i "" ≠ "" → fps.getD i "" = fps.getD j "" → fps.getD i "" = f0)
    (hclean : ∀ f ∈ files, "duplicate" ∉ f.Tags) :
    ∀ i ∈ List.range files.length,
      ("duplicate" ∈ ((detectDuplicates fps files).getD i default).Tags ↔
        fps.getD i "" = f0) ∧
      (fps.getD i "" = f0 →
        "duplicate-group-1" ∈ ((detectDuplicates fps files).getD i default).Tags) := by
  obtain ⟨i0, hi0, j0, hj0, hij, hfi0, hfj0⟩ := hex
  have hi0lt : i0 < fps.length := List.mem_range.mp hi0
  have hj0lt : j0 < fps.length := List.mem_range.mp hj0
  have hmem_i0 : i0 ∈ occ f0 0 fps := by
    simpa using occ_complete f0 fps 0 i0 hi0lt hfi0
  have hmem_j0 : j0 ∈ occ f0 0 fps := by
    simpa using occ_complete f0 fps 0 j0 hj0lt hfj0
  have hbig : 1 < (occ f0 0 fps).length := one_lt_length_of_two_mem hij hmem_i0 hmem_j0
  have hnd : ((collectFps fps).map Prod.fst).Nodup := collectGo_keys_nodup fps 0 [] (by simp)
  have hlook : lookupG (collectFps fps) f0 = some (occ f0 0 fps) := by
    unfold collectFps
    rw [collectGo_lookup f0 hf0 fps 0 []]
    rw [if_neg (by intro hc; rw [hc] at hmem_i0; simp at hmem_i0)]
    simp [lookupG]
  have hgmem : (f0, occ f0 0 fps) ∈ collectFps fps := lookupG_mem hlook
  obtain ⟨pre, post, hsplit⟩ := List.append_of_mem hgmem
  have hkeys : ((pre ++ (f0, occ f0 0 fps) :: post).map Prod.fst).Nodup := hsplit ▸ hnd
  have hf0notin : f0 ∉ pre.map Prod.fst ++ post.map Prod.fst := by
    simp only [List.map_append, List.map_cons] at hkeys
    exact (List.nodup_cons.mp (List.nodup_middle.mp hkeys)).1
  have hsmall : ∀ g ∈ collectFps fps, g.1 ≠ f0 → g.2.length ≤ 1 := by
    intro g hg hne
    obtain ⟨hk, hocc⟩ := collectFps_group_char fps g hg
    by_contra hgt
    push_neg at hgt
    obtain ⟨a, b, hab, ha, hb⟩ :=
      exists_two_distinct hgt (hocc ▸ occ_nodup g.1 fps 0)
    have haocc : a ∈ occ g.1 0 fps := hocc ▸ ha
    have hbocc : b ∈ occ g.1 0 fps := hocc ▸ hb
    have haf : fps.getD a "" = g.1 := by
      simpa using occ_mem_getD g.1 fps 0 a haocc
    have hbf : fps.getD b "" = g.1 := by
      simpa using occ_mem_getD g.1 fps 0 b hbocc
    have halt : a < fps.length := by simpa using occ_mem_lt g.1 fps 0 a haocc
    have hblt : b < fps.length := by simpa using occ_mem_lt g.1 fps 0 b hbocc
    have hres := hdistinct a (List.mem_range.mpr halt) b (List.mem_range.mpr hblt) hab
      (by rw [haf]; exact hk) (by rw [haf, hbf])
    rw [haf] at hres
    exact hne hres
  have hpre_small : ∀ g ∈ pre, g.2.length ≤ 1 := by
    intro g hg
    refine hsmall g (by rw [hsplit]; exact List.mem_append_left _ hg) ?_
    intro hc
    apply hf0notin
    apply List.mem_append_left
    rw [← hc]
    exact List.mem_map_of_mem Prod.fst hg
  have hpost_small : ∀ g ∈ post, g.2.length ≤ 1 := by
    intro g hg
    refine hsmall g
      (by rw [hsplit]; exact List.mem_append_right _ (List.mem_cons_of_mem _ hg)) ?_
    intro hc
    apply hf0notin
    apply List.mem_append_right
    rw [← hc]
    exact List.mem_map_of_mem Prod.fst hg
  have hdup : detectDuplicates fps files = dupTagIndices files (occ f0 0 fps) 1 := by
    unfold detectDuplicates
    rw [hsplit, dupPass_skip pre hpre_small 0 ((f0, occ f0 0 fps) :: post) files]
    rw [dupPass, if_pos hbig,
      dupPass_smalls post (0 + 1) (dupTagIndices files (occ f0 0 fps) (0 + 1)) hpost_small]
  intro i hi
  have hilt : i < files.length := List.mem_range.mp hi
  have hiltf : i < fps.length := by omega
  refine ⟨⟨?_, ?_⟩, ?_⟩
  · intro hdupmem
    by_contra hne
    have hnotin : i ∉ occ f0 0 fps := by
      intro hin
      exact hne (by simpa using occ_mem_getD f0 fps 0 i hin)
    rw [hdup, dupTagIndices_untouched files (occ f0 0 fps) 1 i hnotin] at hdupmem
    exact hclean (files.getD i default) (getD_mem_of_lt files i hilt) hdupmem
  · intro hf
    have hin : i ∈ occ f0 0 fps := by simpa using occ_complete f0 fps 0 i hiltf hf
    rw [hdup, dupTagIndices_mem files (occ f0 0 fps) 1 i hbig (occ_nodup f0 fps 0) hin hilt]
    simp
  · intro hf
    have hin : i ∈ occ f0 0 fps := by simpa using occ_complete f0 fps 0 i hiltf hf
    rw [hdup, dupTagIndices_mem files (occ f0 0 fps) 1 i hbig (occ_nodup f0 fps 0) hin hilt]
    have hstr : ("duplicate-group-" ++ toString 1 : String) = "duplicate-group-1" := rfl
    simp [hstr]

/-- C4, witness: the grouping theorem applied to three records of which
the first two share the fingerprint `"f"` and the third has the
distinct fingerprint `"g"`: the first record is tagged `duplicate` and
`duplicate-group-1`, the third is not tagged. -/
theorem C4_duplicate_witness :
    "duplicate" ∈ ((detectDuplicates ["f", "f", "g"] threeRecords).getD 0 default).Tags ∧
    "duplicate-group-1" ∈
      ((detectDuplicates ["f", "f", "g"] threeRecords).getD 0 default).Tags ∧
    "duplicate" ∉ ((detectDuplicates ["f", "f", "g"] threeRecords).getD 2 default).Tags := by
  have h0 := C4_duplicate_grouping ["f", "f", "g"] threeRecords "f" (by decide) (by decide)
    (by decide) (by decide) (by decide) 0 (by decide)
  have h2 := C4_duplicate_grouping ["f", "f", "g"] threeRecords "f" (by decide) (by decide)
    (by decide) (by decide) (by decide) 2 (by decide)
  exact ⟨h0.1.mpr (by decide), h0.2 (by decide),
    fun hmem => absurd (h2.1.mp hmem) (by decide)⟩

theorem readTags_fp (fd : FileData) (m : AudioMetadata) :
    (readEmbeddedTags fd m).Fingerprint = m.Fingerprint := by
  unfold readEmbeddedTags
  cases fd.tagData <;> rfl

theorem analyzeCompressed_fp (fd : FileData) (m0 m : AudioMetadata)
    (h : analyzeCompressed fd m0 = some m) : m.Fingerprint = m0.Fingerprint := by
  unfold analyzeCompressed at h
  rcases htag : fd.tagData with _ | t
  · rw [htag] at h
    simp at h
  · rw [htag] at h
    have hm := Option.some.inj h
    subst hm
    by_cases h1 : (t.format != "") = true
    · simp only [if_pos h1]
      split <;> rfl
    · simp only [if_neg h1]
      split <;> rfl

/-- C10, confirmed.  Only `.wav` files ever receive a non-empty
fingerprint: on every non-WAV path (compressed or unknown extension)
`AnalyzeFile` returns metadata with an empty `Fingerprint`, and a
record whose fingerprint is empty never enters a fingerprint group, so
duplicate detection never tags it `"duplicate"`. -/
theorem C10_compressed_no_fingerprint :
    (∀ (ext : String) (fd : FileData) (m : AudioMetadata),
      ext ≠ ".wav" → AnalyzeFile ext fd = some m → m.Fingerprint = "") ∧
    (∀ (fps : List String) (files : List AudioFile) (i : Nat),
      fps.getD i "" = "" →
      "duplicate" ∉ (files.getD i default).Tags →
      "duplicate" ∉ ((detectDuplicates fps files).getD i default).Tags) := by
  constructor
  · intro ext fd m hne h
    have hb : (ext == ".wav") = false := by simp [hne]
    simp only [AnalyzeFile] at h
    rw [if_neg (by simp [hb])] at h
    by_cases hc : (ext == ".mp3" || ext == ".ogg" || ext == ".flac" || ext == ".aac" ||
        ext == ".m4a" || ext == ".wma") = true
    · rw [if_pos hc] at h
      rcases hcomp : analyzeCompressed fd (readEmbeddedTags fd emptyMeta) with _ | mc
      · rw [hcomp] at h
        have hm := Option.some.inj h
        subst hm
        show (readEmbeddedTags fd emptyMeta).Fingerprint = ""
        rw [readTags_fp]
        rfl
      · rw [hcomp] at h
        have hm := Option.some.inj h
        subst hm
        rw [analyzeCompressed_fp fd _ mc hcomp, readTags_fp]
        rfl
    · rw [if_neg hc] at h
      by_cases hlen : (ext.length == 0) = true
      · rw [if_pos hlen] at h
        simp at h
      · rw [if_neg hlen] at h
        have hm := Option.some.inj h
        subst hm
        show (readEmbeddedTags fd emptyMeta).Fingerprint = ""
        rw [readTags_fp]
        rfl
  · intro fps files i hempty hclean
    have huntouched : (detectDuplicates fps files).getD i default = files.getD i default := by
      unfold detectDuplicates
      apply dupPass_untouched
      intro g hg hin
      obtain ⟨hk, hocc⟩ := collectFps_group_char fps g hg
      have := occ_mem_getD g.1 fps 0 i (hocc ▸ hin)
      simp only [Nat.sub_zero] at this
      rw [hempty] at this
      exact hk this.symm
    rw [huntouched]
    exact hclean

/-- C10, witness: the theorem applied at a concrete `.mp3` file (whose
analysis yields an empty fingerprint) and at the first record of a
batch whose first fingerprint is empty. -/
theorem C10_compressed_witness :
    ({ Format := "mp3" } : AudioMetadata).Fingerprint = "" ∧
    "duplicate" ∉ ((detectDuplicates ["", "a", "a"] threeRecords).getD 0 default).Tags :=
  ⟨C10_compressed_no_fingerprint.1 ".mp3" {} { Format := "mp3" } (by decide) rfl,
   C10_compressed_no_fingerprint.2 ["", "a", "a"] threeRecords 0 (by decide) (by decide)⟩
